import Mathlib

/-!
Verification of the mediaorg media organizer (src/mediaorg/__main__.py)
against its natural-language specification.

The development shallowly embeds the pattern-compilation and
time-inference engine: the DatetimePattern template compiler and its
regex matcher (restricted to the regex fragment the compiler actually
emits: literal characters plus the capture groups \d{4}, \d{2},
\d{1,2} and am|pm|AM|PM), the placeholder-values-to-datetime
reconstruction, span selection, directory time aggregation, output
formatting, collision-avoiding path allocation and the dry-run
dispatch.  Python datetimes are modelled as 7-field records of
naturals, timestamps as rationals, strings as Lean strings.
-/

namespace Mediaorg

/-- Model of a Python datetime value: the 7-field record
[year, month, day, hour, minute, second, microsecond]. -/
structure PyDateTime where
  year : Nat
  month : Nat
  day : Nat
  hour : Nat
  minute : Nat
  second : Nat
  micro : Nat
deriving Repr, DecidableEq

/-- Leap-year rule used by Python's datetime for day validation. -/
def isLeapYear (y : Nat) : Bool :=
  (y % 4 == 0 && y % 100 != 0) || y % 400 == 0

/-- Number of days in a month, as validated by datetime(...). -/
def daysInMonth (y m : Nat) : Nat :=
  if m == 2 then (if isLeapYear y then 29 else 28)
  else if m == 4 || m == 6 || m == 9 || m == 11 then 30
  else 31

/-- Field validity enforced by the Python datetime constructor
(MINYEAR = 1, MAXYEAR = 9999); datetime(*struct) raises ValueError
outside these bounds. -/
def ValidDT (t : PyDateTime) : Prop :=
  1 ≤ t.year ∧ t.year ≤ 9999 ∧ 1 ≤ t.month ∧ t.month ≤ 12 ∧
  1 ≤ t.day ∧ t.day ≤ daysInMonth t.year t.month ∧
  t.hour ≤ 23 ∧ t.minute ≤ 59 ∧ t.second ≤ 59 ∧ t.micro ≤ 999999

instance (t : PyDateTime) : Decidable (ValidDT t) := by
  unfold ValidDT; infer_instance

/-- Model of the datetime(year, month, day, hour, minute, second,
microsecond) constructor: validates ranges, raising (none) otherwise. -/
def mkDatetime (y mo d h mi s us : Nat) : Option PyDateTime :=
  if ValidDT ⟨y, mo, d, h, mi, s, us⟩ then some ⟨y, mo, d, h, mi, s, us⟩
  else none

/-! ## Decimal rendering and parsing of naturals

Models Python's decimal rendering (str/%s of an int, strftime zero
padding) and int() parsing of digit strings. -/

/-- Single decimal digit to its character. -/
def digitChar (d : Nat) : Char :=
  match d with
  | 0 => '0' | 1 => '1' | 2 => '2' | 3 => '3' | 4 => '4'
  | 5 => '5' | 6 => '6' | 7 => '7' | 8 => '8' | 9 => '9'
  | _ => '*'

/-- Character back to its decimal digit value (inverse of digitChar on
digits; 0 elsewhere). -/
def charDigit (c : Char) : Nat :=
  match c with
  | '0' => 0 | '1' => 1 | '2' => 2 | '3' => 3 | '4' => 4
  | '5' => 5 | '6' => 6 | '7' => 7 | '8' => 8 | '9' => 9
  | _ => 0

/-- Is the character an ASCII decimal digit (the \d class on the ASCII
inputs in scope). -/
def isDig (c : Char) : Bool := '0' ≤ c && c ≤ '9'

/-- Little-endian base-10 digits, computed with structural fuel so
that concrete instances reduce in the kernel. -/
def decDigitsAux : Nat → Nat → List Nat
  | 0, _ => []
  | fuel + 1, n => if n = 0 then [] else n % 10 :: decDigitsAux fuel (n / 10)

/-- Little-endian base-10 digits of a natural. -/
def decDigits (n : Nat) : List Nat := decDigitsAux n n

theorem decDigitsAux_eq_digits :
    ∀ fuel n, n ≤ fuel → decDigitsAux fuel n = Nat.digits 10 n := by
  intro fuel
  induction fuel with
  | zero =>
    intro n hn
    have : n = 0 := by omega
    subst this
    simp [decDigitsAux]
  | succ f ih =>
    intro n hn
    unfold decDigitsAux
    by_cases h : n = 0
    · simp [h]
    · rw [if_neg h, Nat.digits_def' (by norm_num : 1 < 10) (Nat.pos_of_ne_zero h)]
      rw [ih (n / 10) (by omega)]

theorem decDigits_eq (n : Nat) : decDigits n = Nat.digits 10 n :=
  decDigitsAux_eq_digits n n le_rfl

/-- Decimal representation of a natural, most significant digit first:
models Python's str(n). -/
def decRepr (n : Nat) : List Char :=
  if n = 0 then ['0'] else (decDigits n).reverse.map digitChar

theorem decRepr_eq (n : Nat) :
    decRepr n = if n = 0 then ['0'] else (Nat.digits 10 n).reverse.map digitChar := by
  unfold decRepr
  rw [decDigits_eq]

/-- Zero-padded decimal of width w: models strftime's %02d / %04d
style padding. -/
def decPad (w n : Nat) : List Char :=
  List.replicate (w - (decRepr n).length) '0' ++ decRepr n

/-- Model of int() on a captured digit string. -/
def parseNat (l : List Char) : Nat :=
  l.foldl (fun a c => 10 * a + charDigit c) 0

theorem charDigit_digitChar {d : Nat} (hd : d < 10) :
    charDigit (digitChar d) = d := by
  interval_cases d <;> rfl

theorem isDig_digitChar {d : Nat} (hd : d < 10) : isDig (digitChar d) = true := by
  interval_cases d <;> rfl

theorem decRepr_all_digits (n : Nat) : ∀ c ∈ decRepr n, isDig c = true := by
  intro c hc
  rw [decRepr_eq] at hc
  by_cases h : n = 0
  · simp [h] at hc; simp [hc]; rfl
  · simp [h, List.mem_map, List.mem_reverse] at hc
    obtain ⟨d, hd, rfl⟩ := hc
    exact isDig_digitChar (Nat.digits_lt_base (by norm_num) hd)

theorem map_digitChar_inj :
    ∀ (l1 l2 : List Nat), (∀ d ∈ l1, d < 10) → (∀ d ∈ l2, d < 10) →
    l1.map digitChar = l2.map digitChar → l1 = l2 := by
  intro l1
  induction l1 with
  | nil =>
    intro l2 _ _ h
    cases l2 with
    | nil => rfl
    | cons d r => simp at h
  | cons d r ih =>
    intro l2 h1 h2 h
    cases l2 with
    | nil => simp at h
    | cons e s =>
      simp only [List.map_cons, List.cons.injEq] at h
      have hd : d < 10 := h1 d (by simp)
      have he : e < 10 := h2 e (by simp)
      have hde : d = e := by
        have := congrArg charDigit h.1
        rwa [charDigit_digitChar hd, charDigit_digitChar he] at this
      have hrs : r = s := ih s (fun x hx => h1 x (by simp [hx]))
        (fun x hx => h2 x (by simp [hx])) h.2
      rw [hde, hrs]

theorem decRepr_ne_single_zero {n : Nat} (hn : n ≠ 0) : decRepr n ≠ ['0'] := by
  intro h
  rw [decRepr_eq] at h
  rw [if_neg hn] at h
  have hne : Nat.digits 10 n ≠ [] := Nat.digits_ne_nil_iff_ne_zero.mpr hn
  have hrev : (Nat.digits 10 n).reverse = [0] := by
    have hall : ∀ d ∈ (Nat.digits 10 n).reverse, d < 10 := by
      intro d hd
      exact Nat.digits_lt_base (by norm_num) (List.mem_reverse.mp hd)
    have h0 : ([0] : List Nat).map digitChar = ['0'] := rfl
    exact map_digitChar_inj _ [0] hall (by intro d hd; simp at hd; omega)
      (h.trans h0.symm)
  have hdig : Nat.digits 10 n = [0] := by
    have := congrArg List.reverse hrev
    simpa using this
  have hz := Nat.getLast_digit_ne_zero 10 hn
  have : (Nat.digits 10 n).getLast hne = 0 := by
    simp [List.getLast_eq_getElem, hdig]
  exact hz this

theorem decRepr_injective : Function.Injective decRepr := by
  intro a b hab
  by_cases ha : a = 0 <;> by_cases hb : b = 0
  · omega
  · exfalso
    subst ha
    exact decRepr_ne_single_zero hb hab.symm
  · exfalso
    subst hb
    exact decRepr_ne_single_zero ha hab
  · rw [decRepr_eq, decRepr_eq, if_neg ha, if_neg hb] at hab
    have h2 : (Nat.digits 10 a).reverse = (Nat.digits 10 b).reverse :=
      map_digitChar_inj _ _
        (fun d hd => Nat.digits_lt_base (by norm_num) (List.mem_reverse.mp hd))
        (fun d hd => Nat.digits_lt_base (by norm_num) (List.mem_reverse.mp hd))
        hab
    have h3 : Nat.digits 10 a = Nat.digits 10 b := by
      have := congrArg List.reverse h2
      simpa using this
    calc a = Nat.ofDigits 10 (Nat.digits 10 a) := (Nat.ofDigits_digits 10 a).symm
    _ = Nat.ofDigits 10 (Nat.digits 10 b) := by rw [h3]
    _ = b := Nat.ofDigits_digits 10 b

theorem foldl_map_digitChar (l : List Nat) (h : ∀ d ∈ l, d < 10) :
    ∀ a : Nat, List.foldl (fun x c => 10 * x + charDigit c) a (l.map digitChar) =
      List.foldl (fun x d => 10 * x + d) a l := by
  induction l with
  | nil => intro a; rfl
  | cons d r ih =>
    intro a
    simp only [List.map_cons, List.foldl_cons]
    rw [charDigit_digitChar (h d (by simp))]
    exact ih (fun x hx => h x (by simp [hx])) _

theorem foldl_reverse_ofDigits (l : List Nat) :
    ∀ a : Nat, List.foldl (fun x d => 10 * x + d) a l.reverse =
      a * 10 ^ l.length + Nat.ofDigits 10 l := by
  induction l with
  | nil => intro a; simp
  | cons d r ih =>
    intro a
    rw [List.reverse_cons, List.foldl_append]
    simp only [List.foldl_cons, List.foldl_nil, ih a, Nat.ofDigits_cons,
      List.length_cons]
    ring

theorem parseNat_decRepr (n : Nat) : parseNat (decRepr n) = n := by
  unfold parseNat
  rw [decRepr_eq]
  by_cases hn : n = 0
  · simp [hn]; rfl
  · rw [if_neg hn]
    rw [foldl_map_digitChar _
      (fun d hd => Nat.digits_lt_base (by norm_num) (List.mem_reverse.mp hd))]
    rw [foldl_reverse_ofDigits]
    simp [Nat.ofDigits_digits]

theorem foldl_zeros (k : Nat) :
    List.foldl (fun x c => 10 * x + charDigit c) 0 (List.replicate k '0') = 0 := by
  induction k with
  | zero => rfl
  | succ m ih => simpa [List.replicate_succ] using ih

theorem parseNat_decPad (w n : Nat) : parseNat (decPad w n) = n := by
  unfold parseNat decPad
  rw [List.foldl_append, foldl_zeros]
  exact parseNat_decRepr n

theorem decRepr_length_le {n w : Nat} (h : n < 10 ^ w) :
    (decRepr n).length ≤ w ∨ n = 0 := by
  by_cases hn : n = 0
  · right; exact hn
  · left
    rw [decRepr_eq, if_neg hn]
    simp only [List.length_map, List.length_reverse]
    rw [Nat.digits_len 10 n (by norm_num) hn]
    have := (Nat.lt_pow_iff_log_lt (b := 10) (by norm_num) hn).mp h
    omega

theorem decPad_length {n w : Nat} (hn : n < 10 ^ w) (hw : 1 ≤ w) :
    (decPad w n).length = w := by
  unfold decPad
  rw [List.length_append, List.length_replicate]
  rcases decRepr_length_le hn with h | h
  · omega
  · subst h
    simp [decRepr_eq]
    omega

theorem decPad_all_digits (w n : Nat) : ∀ c ∈ decPad w n, isDig c = true := by
  intro c hc
  unfold decPad at hc
  rcases List.mem_append.mp hc with h | h
  · have := List.eq_of_mem_replicate h
    subst this; rfl
  · exact decRepr_all_digits n c h

/-! ## The placeholder grammar and template compiler (DatetimePattern)

PLACEHOLDERS maps the tokens %Y %y %m %d %H %I %M %S %p to a capture
regex, a target position in the 7-field record, and for %y and %p a
value transform.  Templates are compiled by repeatedly locating the
earliest token occurrence and splicing in its capture regex as a
group; this is equivalent to a single left-to-right character scan
because all tokens are distinct two-character strings starting with
'%' and no spliced capture regex contains '%'. -/

/-- The nine placeholder tokens, named by their strftime letter. -/
inductive Token where
  | Y | y | m | d | H | I | M | S | p
deriving Repr, DecidableEq

/-- The four capture regexes occurring in PLACEHOLDERS. -/
inductive TokRe where
  | d4    -- \d{4}
  | d2    -- \d{2}
  | d12   -- \d{1,2}
  | ampm  -- am|pm|AM|PM
deriving Repr, DecidableEq

/-- Capture regex of each token (first component of PLACEHOLDERS). -/
def Token.re : Token → TokRe
  | .Y => .d4
  | .y => .d2
  | .m => .d12
  | .d => .d12
  | .H => .d12
  | .I => .d12
  | .M => .d12
  | .S => .d12
  | .p => .ampm

/-- One element of the compiled regex: a literal character or a
capture group for a token. -/
inductive RItem where
  | lit (c : Char)
  | group (t : Token)
deriving Repr, DecidableEq

/-- Token recognized after a '%' during the compilation scan. -/
def tokenOfChar (c : Char) : Option Token :=
  match c with
  | 'Y' => some .Y
  | 'y' => some .y
  | 'm' => some .m
  | 'd' => some .d
  | 'H' => some .H
  | 'I' => some .I
  | 'M' => some .M
  | 'S' => some .S
  | 'p' => some .p
  | _ => none

/-- Left-to-right compilation scan over the template characters,
faithful to the repeated find-earliest-placeholder loop of
DatetimePattern.__init__. -/
def compileChars : List Char → List RItem
  | [] => []
  | [c] => [RItem.lit c]
  | c1 :: c2 :: rest =>
    if c1 = '%' then
      match tokenOfChar c2 with
      | some t => RItem.group t :: compileChars rest
      | none => RItem.lit '%' :: compileChars (c2 :: rest)
    else RItem.lit c1 :: compileChars (c2 :: rest)

/-- Split on the ';' separator: pattern.split(';', 2) unpacked into
two names succeeds only when the template contains exactly one ';'
(any other count raises ValueError, which is caught and ignored). -/
def splitSemiAux : List Char → List Char → List (List Char)
  | [], acc => [acc.reverse]
  | ';' :: rest, acc => acc.reverse :: splitSemiAux rest []
  | c :: rest, acc => splitSemiAux rest (c :: acc)

/-- Split a character list on ';'. -/
def splitSemi (l : List Char) : List (List Char) := splitSemiAux l []

def splitTemplate (s : String) : String × Option String :=
  match splitSemi s.data with
  | [a, b] => (String.mk a, some (String.mk b))
  | _ => (s, none)

/-- A compiled DatetimePattern: the regex as a sequence of literal
characters and capture groups, the tokens in order of appearance
(self.__placeholders), and the optional relative-date half. -/
structure DatetimePattern where
  items : List RItem
  placeholders : List Token
  timefmt : Option String
deriving Repr, DecidableEq

/-- Tokens of an item sequence, in order of appearance. -/
def tokensOf (items : List RItem) : List Token :=
  items.filterMap (fun i => match i with | .group t => some t | .lit _ => none)

/-- DatetimePattern.__init__. -/
def DatetimePattern.compile (pattern : String) : DatetimePattern :=
  let sp := splitTemplate pattern
  let items := compileChars sp.1.data
  { items := items, placeholders := tokensOf items, timefmt := sp.2 }

/-! ## Matching (re.match / re.search on the emitted regex fragment)

The compiled regex is a concatenation of literal characters and the
four capture regexes.  Matching is modelled with standard backtracking
semantics: a group tries its alternatives in preference order (greedy
for \d{1,2}, declaration order for am|pm|AM|PM) and the first
alternative that lets the remainder match wins; re.match anchors at
the start only, re.search tries successive start positions and takes
the leftmost match.  Literal characters are modelled as matching
themselves, which is faithful for characters that are not regex
metacharacters (the safeLitChar alphabet below). -/

/-- Alternatives of a capture regex on a string, as (captured, rest)
pairs in backtracking preference order. -/
def TokRe.alternatives : TokRe → List Char → List (List Char × List Char)
  | .d4, s =>
    if (s.take 4).length = 4 ∧ (s.take 4).all isDig then [(s.take 4, s.drop 4)]
    else []
  | .d2, s =>
    if (s.take 2).length = 2 ∧ (s.take 2).all isDig then [(s.take 2, s.drop 2)]
    else []
  | .d12, s =>
    (if (s.take 2).length = 2 ∧ (s.take 2).all isDig then [(s.take 2, s.drop 2)]
     else []) ++
    (if (s.take 1).length = 1 ∧ (s.take 1).all isDig then [(s.take 1, s.drop 1)]
     else [])
  | .ampm, s =>
    (if s.take 2 = ['a', 'm'] then [(['a', 'm'], s.drop 2)] else []) ++
    (if s.take 2 = ['p', 'm'] then [(['p', 'm'], s.drop 2)] else []) ++
    (if s.take 2 = ['A', 'M'] then [(['A', 'M'], s.drop 2)] else []) ++
    (if s.take 2 = ['P', 'M'] then [(['P', 'M'], s.drop 2)] else [])

/-- Anchored match of an item sequence against a string; returns the
captured (token, value) pairs in group order, or none.  A group tries
its alternatives in preference order and the first alternative that
lets the remainder match wins (List.findSome?).  The match may end
before the end of the string (re.match is not right-anchored). -/
def matchItems : List RItem → List Char → Option (List (Token × List Char))
  | [], _ => some []
  | .lit c :: items, s =>
    match s with
    | [] => none
    | c2 :: rest => if c = c2 then matchItems items rest else none
  | .group t :: items, s =>
    (t.re.alternatives s).findSome?
      (fun a => (matchItems items a.2).map (fun caps => (t, a.1) :: caps))

/-- Leftmost-match search: re.search tries successive start positions
and returns the first anchored match. -/
def searchItems (items : List RItem) : List Char → Option (List (Token × List Char))
  | [] => matchItems items []
  | c :: rest =>
    match matchItems items (c :: rest) with
    | some caps => some caps
    | none => searchItems items rest

/-! ## Reconstruction (DatetimePattern.__get_placeholder_values and
DatetimePattern.__placeholder_values_to_time) -/

/-- Lookup in the vals dict (keyed by token; insertion order is
irrelevant to lookup). -/
def lookupV (vals : List (Token × List Char)) (t : Token) : Option (List Char) :=
  match vals with
  | [] => none
  | (t2, v) :: rest => if t2 = t then some v else lookupV rest t

/-- The loop body of __get_placeholder_values: fold the captured
(token, value) pairs into a dict, raising ValueError when the same
token captured two different values. -/
def gpvAux (vals : List (Token × List Char)) :
    List (Token × List Char) → Except String (List (Token × List Char))
  | [] => .ok vals
  | (t, v) :: rest =>
    match lookupV vals t with
    | some v0 =>
      if v0 = v then gpvAux vals rest
      else .error "not all placeholder values are the same"
    | none => gpvAux (vals ++ [(t, v)]) rest

/-- DatetimePattern.__get_placeholder_values on the captures of a
successful match. -/
def getPlaceholderValues (caps : List (Token × List Char)) :
    Except String (List (Token × List Char)) :=
  gpvAux [] caps

/-- Is the captured am/pm value "pm" after lowercasing. -/
def isPmVal (v : List Char) : Bool :=
  v.map Char.toLower = ['p', 'm']

/-- DatetimePattern.__placeholder_values_to_time: start from the
default record [1,1,1,0,0,0,0] and fold each token of the PLACEHOLDERS
table, in its declared order %Y %y %m %d %H %I %M %S %p, into the
record at the token's target position, applying the transform of %y
(2000 + int(v)) and of %p (w + 12 if the value lowercases to "pm");
then construct the datetime, which validates the ranges. -/
def placeholderValuesToTime (vals : List (Token × List Char)) : Option PyDateTime :=
  let y0 := match lookupV vals .Y with
    | some v => parseNat v
    | none => 1
  let y1 := match lookupV vals .y with
    | some v => 2000 + parseNat v
    | none => y0
  let mo := match lookupV vals .m with
    | some v => parseNat v
    | none => 1
  let da := match lookupV vals .d with
    | some v => parseNat v
    | none => 1
  let h0 := match lookupV vals .H with
    | some v => parseNat v
    | none => 0
  let h1 := match lookupV vals .I with
    | some v => parseNat v
    | none => h0
  let h2 := match lookupV vals .p with
    | some v => h1 + (if isPmVal v then 12 else 0)
    | none => h1
  let mi := match lookupV vals .M with
    | some v => parseNat v
    | none => 0
  let se := match lookupV vals .S with
    | some v => parseNat v
    | none => 0
  mkDatetime y1 mo da h2 mi se 0

/-- Abstract interface to the external relative-date resolver
(parsedatetime.Calendar): given the timefmt half and the reconstructed
time, produce the final time (or raise). -/
def Resolver : Type := String → PyDateTime → Except String PyDateTime

/-- DatetimePattern.__process: on a match, collect placeholder values
(ValueError propagates), reconstruct the datetime (ValueError from the
datetime constructor propagates), then, when a non-empty timefmt half
is present, hand over to the external relative-date resolver. -/
def process (resolver : Resolver) (p : DatetimePattern)
    (mo : Option (List (Token × List Char))) : Except String (Option PyDateTime) :=
  match mo with
  | none => .ok none
  | some caps =>
    match getPlaceholderValues caps with
    | .error e => .error e
    | .ok vals =>
      match placeholderValuesToTime vals with
      | none => .error "ValueError: datetime field out of range"
      | some t =>
        match p.timefmt with
        | some fmt =>
          if fmt = "" then .ok (some t)
          else
            match resolver fmt t with
            | .ok t2 => .ok (some t2)
            | .error e => .error e
        | none => .ok (some t)

/-- DatetimePattern.match. -/
def DatetimePattern.matchStr (resolver : Resolver) (p : DatetimePattern)
    (s : String) : Except String (Option PyDateTime) :=
  process resolver p (matchItems p.items s.data)

/-- DatetimePattern.search. -/
def DatetimePattern.searchStr (resolver : Resolver) (p : DatetimePattern)
    (s : String) : Except String (Option PyDateTime) :=
  process resolver p (searchItems p.items s.data)

/-! ## Rendering (strftime) on the token vocabulary

Models t.strftime(template) for templates whose placeholders are
drawn from the nine-token vocabulary and whose literal characters
render as themselves.  %Y is four digits for years 1000-9999 (the
platform-independent range), the two-digit fields are zero-padded,
%I is the 12-hour clock (12, 1..11), %p is AM for hours below 12 and
PM otherwise. -/

/-- Hour on the 12-hour clock. -/
def hour12 (h : Nat) : Nat := if h % 12 = 0 then 12 else h % 12

/-- Rendered text of one token for a given datetime. -/
def Token.render (t : Token) (dt : PyDateTime) : List Char :=
  match t with
  | .Y => decPad 4 dt.year
  | .y => decPad 2 (dt.year % 100)
  | .m => decPad 2 dt.month
  | .d => decPad 2 dt.day
  | .H => decPad 2 dt.hour
  | .I => decPad 2 (hour12 dt.hour)
  | .M => decPad 2 dt.minute
  | .S => decPad 2 dt.second
  | .p => if dt.hour < 12 then ['A', 'M'] else ['P', 'M']

/-- Rendering of a compiled template: literal characters as
themselves, each token through strftime. -/
def renderItems (items : List RItem) (dt : PyDateTime) : List Char :=
  match items with
  | [] => []
  | .lit c :: rest => c :: renderItems rest dt
  | .group t :: rest => t.render dt ++ renderItems rest dt

/-- The captures the rendering produces: one (token, rendered value)
pair per group, in order. -/
def rendCaps (items : List RItem) (dt : PyDateTime) : List (Token × List Char) :=
  match items with
  | [] => []
  | .lit _ :: rest => rendCaps rest dt
  | .group t :: rest => (t, t.render dt) :: rendCaps rest dt

/-- Characters on which the embedding of a template literal is
faithful: not a regex metacharacter (so re treats it literally), not
'%' (so strftime passes it through) and not ';' (the separator). -/
def safeLitChar (c : Char) : Prop :=
  c.isAlpha = true ∨ c.isDigit = true ∨
  c ∈ ([' ', '-', '_', ':', '/', ',', '@', '=', '~', '<', '>'] : List Char)

instance (c : Char) : Decidable (safeLitChar c) := by
  unfold safeLitChar; infer_instance

/-- All literal characters of a compiled template are safe. -/
def SafeItems (items : List RItem) : Prop :=
  ∀ c, RItem.lit c ∈ items → safeLitChar c

theorem daysInMonth_le (y m : Nat) : daysInMonth y m ≤ 31 := by
  unfold daysInMonth
  split
  · split <;> omega
  · split <;> omega

theorem hour12_le (h : Nat) : hour12 h ≤ 12 := by
  unfold hour12
  split
  · omega
  · have := Nat.mod_lt h (show 0 < 12 by norm_num)
    omega

theorem all_isDig_decPad (w n : Nat) : (decPad w n).all isDig = true := by
  rw [List.all_eq_true]
  exact decPad_all_digits w n

/-- On the rendered value of a token followed by anything, the token's
capture regex offers the rendered value itself as its first
alternative. -/
theorem alternatives_render (tk : Token) (t : PyDateTime) (hv : ValidDT t)
    (s : List Char) :
    ∃ tail, tk.re.alternatives (tk.render t ++ s) = (tk.render t, s) :: tail := by
  obtain ⟨-, hy, -, hm, -, hd, hh, hmi, hs, -⟩ := hv
  have h31 := daysInMonth_le t.year t.month
  have h12 := hour12_le t.hour
  have hmod : t.year % 100 < 100 := Nat.mod_lt t.year (by norm_num)
  cases tk with
  | Y =>
    have hlen : (Token.render .Y t).length = 4 := decPad_length (by omega) (by omega)
    have hall : (Token.render .Y t).all isDig = true := all_isDig_decPad 4 t.year
    refine ⟨[], ?_⟩
    simp only [Token.re, TokRe.alternatives, List.take_left' hlen,
      List.drop_left' hlen]
    simp [hlen, hall]
  | y =>
    have hlen : (Token.render .y t).length = 2 := decPad_length (by omega) (by omega)
    have hall : (Token.render .y t).all isDig = true :=
      all_isDig_decPad 2 (t.year % 100)
    refine ⟨[], ?_⟩
    simp only [Token.re, TokRe.alternatives, List.take_left' hlen,
      List.drop_left' hlen]
    simp [hlen, hall]
  | m =>
    have hlen : (Token.render .m t).length = 2 := decPad_length (by omega) (by omega)
    have hall : (Token.render .m t).all isDig = true := all_isDig_decPad 2 t.month
    simp only [Token.re, TokRe.alternatives, List.take_left' hlen,
      List.drop_left' hlen]
    rw [if_pos ⟨hlen, hall⟩]
    exact ⟨_, rfl⟩
  | d =>
    have hlen : (Token.render .d t).length = 2 := decPad_length (by omega) (by omega)
    have hall : (Token.render .d t).all isDig = true := all_isDig_decPad 2 t.day
    simp only [Token.re, TokRe.alternatives, List.take_left' hlen,
      List.drop_left' hlen]
    rw [if_pos ⟨hlen, hall⟩]
    exact ⟨_, rfl⟩
  | H =>
    have hlen : (Token.render .H t).length = 2 := decPad_length (by omega) (by omega)
    have hall : (Token.render .H t).all isDig = true := all_isDig_decPad 2 t.hour
    simp only [Token.re, TokRe.alternatives, List.take_left' hlen,
      List.drop_left' hlen]
    rw [if_pos ⟨hlen, hall⟩]
    exact ⟨_, rfl⟩
  | I =>
    have hlen : (Token.render .I t).length = 2 := decPad_length (by omega) (by omega)
    have hall : (Token.render .I t).all isDig = true :=
      all_isDig_decPad 2 (hour12 t.hour)
    simp only [Token.re, TokRe.alternatives, List.take_left' hlen,
      List.drop_left' hlen]
    rw [if_pos ⟨hlen, hall⟩]
    exact ⟨_, rfl⟩
  | M =>
    have hlen : (Token.render .M t).length = 2 := decPad_length (by omega) (by omega)
    have hall : (Token.render .M t).all isDig = true := all_isDig_decPad 2 t.minute
    simp only [Token.re, TokRe.alternatives, List.take_left' hlen,
      List.drop_left' hlen]
    rw [if_pos ⟨hlen, hall⟩]
    exact ⟨_, rfl⟩
  | S =>
    have hlen : (Token.render .S t).length = 2 := decPad_length (by omega) (by omega)
    have hall : (Token.render .S t).all isDig = true := all_isDig_decPad 2 t.second
    simp only [Token.re, TokRe.alternatives, List.take_left' hlen,
      List.drop_left' hlen]
    rw [if_pos ⟨hlen, hall⟩]
    exact ⟨_, rfl⟩
  | p =>
    refine ⟨[], ?_⟩
    by_cases hlt : t.hour < 12
    · have hr : Token.render .p t = ['A', 'M'] := by
        unfold Token.render
        rw [if_pos hlt]
      rw [hr]
      have hlen : (['A', 'M'] : List Char).length = 2 := rfl
      simp only [Token.re, TokRe.alternatives, List.take_left' hlen,
        List.drop_left' hlen]
      simp
    · have hr : Token.render .p t = ['P', 'M'] := by
        unfold Token.render
        rw [if_neg hlt]
      rw [hr]
      have hlen : (['P', 'M'] : List Char).length = 2 := rfl
      simp only [Token.re, TokRe.alternatives, List.take_left' hlen,
        List.drop_left' hlen]
      simp

/-- Matching the rendering of a template (with any suffix appended)
succeeds and captures exactly the rendered value of each group. -/
theorem matchItems_render (t : PyDateTime) (hv : ValidDT t) :
    ∀ items suffix,
      matchItems items (renderItems items t ++ suffix) = some (rendCaps items t) := by
  intro items
  induction items with
  | nil => intro s; rfl
  | cons i rest ih =>
    intro s
    cases i with
    | lit c =>
      show matchItems (.lit c :: rest) ((c :: renderItems rest t) ++ s) = _
      rw [List.cons_append]
      show (if c = c then matchItems rest (renderItems rest t ++ s) else none) = _
      rw [if_pos rfl, ih s]
      rfl
    | group tk =>
      show matchItems (.group tk :: rest)
        ((tk.render t ++ renderItems rest t) ++ s) = _
      rw [List.append_assoc]
      obtain ⟨tail, htail⟩ := alternatives_render tk t hv (renderItems rest t ++ s)
      show (tk.re.alternatives (tk.render t ++ (renderItems rest t ++ s))).findSome?
        (fun a => (matchItems rest a.2).map (fun caps => (tk, a.1) :: caps)) = _
      rw [htail, List.findSome?_cons]
      rw [ih s]
      rfl

/-- Safety of one item (groups are always fine). -/
def safeItem (i : RItem) : Prop :=
  match i with
  | RItem.lit c => safeLitChar c
  | RItem.group _ => True

instance : DecidablePred safeItem := by
  intro i
  cases i <;> unfold safeItem <;> infer_instance

instance (items : List RItem) : Decidable (SafeItems items) := by
  have : (∀ i ∈ items, safeItem i) ↔ SafeItems items := by
    constructor
    · intro h c hc
      exact h _ hc
    · intro h i hi
      cases i with
      | lit c => exact h c hi
      | group t => trivial
  exact decidable_of_iff _ this

/-! ## Representability of a datetime by a token set

The reconstruction defaults absent fields and applies the %y and %p
transforms, so only datetimes in the following per-field ranges are
recovered unchanged by the code. -/

/-- Hours the reconstruction recovers, depending on which of %H, %I,
%p occur in the template (the table order %H, %I, %p means %I
overwrites %H and %p adds 12 to the pm half). -/
def hourTokensOK (toks : List Token) (h : Nat) : Prop :=
  if Token.p ∈ toks then
    (if Token.I ∈ toks then 1 ≤ h ∧ h ≤ 23 ∧ h ≠ 12
     else if Token.H ∈ toks then h ≤ 11
     else h = 0 ∨ h = 12)
  else
    (if Token.I ∈ toks then 1 ≤ h ∧ h ≤ 12
     else if Token.H ∈ toks then True
     else h = 0)

instance (toks : List Token) (h : Nat) : Decidable (hourTokensOK toks h) := by
  unfold hourTokensOK; infer_instance

/-- A valid datetime is representable by a token set when every field
either is covered by a token whose render/reconstruct pair is the
identity on the field's value, or holds its default value. -/
def Representable (toks : List Token) (t : PyDateTime) : Prop :=
  (if Token.y ∈ toks then 2000 ≤ t.year ∧ t.year ≤ 2099
   else if Token.Y ∈ toks then 1000 ≤ t.year
   else t.year = 1) ∧
  (Token.m ∈ toks ∨ t.month = 1) ∧
  (Token.d ∈ toks ∨ t.day = 1) ∧
  hourTokensOK toks t.hour ∧
  (Token.M ∈ toks ∨ t.minute = 0) ∧
  (Token.S ∈ toks ∨ t.second = 0) ∧
  t.micro = 0

instance (toks : List Token) (t : PyDateTime) : Decidable (Representable toks t) := by
  unfold Representable; infer_instance

/-! ## Reconstruction lemmas -/

/-- Keys of rendCaps are the tokens of the template, values the
rendered field texts. -/
theorem lookupV_rendCaps (t : PyDateTime) :
    ∀ items tok, lookupV (rendCaps items t) tok =
      if tok ∈ tokensOf items then some (tok.render t) else none := by
  intro items
  induction items with
  | nil => intro tok; rfl
  | cons i rest ih =>
    intro tok
    cases i with
    | lit c =>
      show lookupV (rendCaps rest t) tok = _
      rw [ih tok]
      rfl
    | group tk =>
      show (if tk = tok then some (tk.render t) else lookupV (rendCaps rest t) tok) = _
      have htoks : tokensOf (.group tk :: rest) = tk :: tokensOf rest := rfl
      rw [htoks]
      by_cases h : tk = tok
      · subst h
        simp
      · rw [if_neg h, ih tok]
        by_cases h2 : tok ∈ tokensOf rest
        · rw [if_pos h2, if_pos (by simp [h2])]
        · rw [if_neg h2, if_neg ?_]
          intro hmem
          rcases List.mem_cons.mp hmem with he | hm2
          · exact h he.symm
          · exact h2 hm2

theorem rendCaps_keys (t : PyDateTime) :
    ∀ items, (rendCaps items t).map Prod.fst = tokensOf items := by
  intro items
  induction items with
  | nil => rfl
  | cons i rest ih =>
    cases i with
    | lit c => exact ih
    | group tk =>
      show tk :: (rendCaps rest t).map Prod.fst = tk :: tokensOf rest
      rw [ih]

/-- lookupV finds no value exactly for keys outside the dict. -/
theorem lookupV_eq_none :
    ∀ (vals : List (Token × List Char)) (tok : Token),
      lookupV vals tok = none ↔ tok ∉ vals.map Prod.fst := by
  intro vals
  induction vals with
  | nil => intro tok; simp [lookupV]
  | cons p rest ih =>
    intro tok
    show (if p.1 = tok then some p.2 else lookupV rest tok) = none ↔ _
    by_cases h : p.1 = tok
    · simp [h]
    · rw [if_neg h, ih tok]
      constructor
      · intro hn hmem
        simp only [List.map_cons, List.mem_cons] at hmem
        rcases hmem with he | hm2
        · exact h he.symm
        · exact hn hm2
      · intro hn hmem
        exact hn (by simp [hmem])

/-- On captures with pairwise distinct keys the __get_placeholder_values
loop succeeds and returns exactly the captures. -/
theorem gpvAux_nodup :
    ∀ (caps vals : List (Token × List Char)),
      ((vals ++ caps).map Prod.fst).Nodup → gpvAux vals caps = .ok (vals ++ caps) := by
  intro caps
  induction caps with
  | nil => intro vals _; simp [gpvAux]
  | cons p rest ih =>
    intro vals hnd
    obtain ⟨t, v⟩ := p
    have hnotin : t ∉ vals.map Prod.fst := by
      intro hmem
      rw [List.map_append] at hnd
      have := (List.nodup_append.mp hnd).2.2
      exact this hmem (by simp)
    show (match lookupV vals t with
      | some v0 => if v0 = v then gpvAux vals rest
          else Except.error "not all placeholder values are the same"
      | none => gpvAux (vals ++ [(t, v)]) rest) = _
    rw [(lookupV_eq_none vals t).mpr hnotin]
    have hr : gpvAux (vals ++ [(t, v)]) rest = .ok ((vals ++ [(t, v)]) ++ rest) := by
      apply ih
      have : (vals ++ [(t, v)]) ++ rest = vals ++ ((t, v) :: rest) := by simp
      rw [this]
      exact hnd
    rw [hr]
    have : (vals ++ [(t, v)]) ++ rest = vals ++ ((t, v) :: rest) := by simp
    rw [this]

theorem getPlaceholderValues_nodup (caps : List (Token × List Char))
    (h : (caps.map Prod.fst).Nodup) : getPlaceholderValues caps = .ok caps := by
  unfold getPlaceholderValues
  have := gpvAux_nodup caps [] (by simpa using h)
  simpa using this

/-- Year field of the reconstruction (the %Y then %y steps of the
PLACEHOLDERS fold). -/
def yearOf (vals : List (Token × List Char)) : Nat :=
  match lookupV vals .y with
  | some v => 2000 + parseNat v
  | none =>
    match lookupV vals .Y with
    | some v => parseNat v
    | none => 1

/-- Month field of the reconstruction. -/
def monthOf (vals : List (Token × List Char)) : Nat :=
  match lookupV vals .m with
  | some v => parseNat v
  | none => 1

/-- Day field of the reconstruction. -/
def dayOf (vals : List (Token × List Char)) : Nat :=
  match lookupV vals .d with
  | some v => parseNat v
  | none => 1

/-- Hour field after the %H and %I steps (I overwrites H). -/
def hourBase (vals : List (Token × List Char)) : Nat :=
  match lookupV vals .I with
  | some v => parseNat v
  | none =>
    match lookupV vals .H with
    | some v => parseNat v
    | none => 0

/-- Hour field after the %p transform. -/
def hourOf (vals : List (Token × List Char)) : Nat :=
  match lookupV vals .p with
  | some v => hourBase vals + (if isPmVal v then 12 else 0)
  | none => hourBase vals

/-- Minute field of the reconstruction. -/
def minuteOf (vals : List (Token × List Char)) : Nat :=
  match lookupV vals .M with
  | some v => parseNat v
  | none => 0

/-- Second field of the reconstruction. -/
def secondOf (vals : List (Token × List Char)) : Nat :=
  match lookupV vals .S with
  | some v => parseNat v
  | none => 0

theorem placeholderValuesToTime_eq (vals : List (Token × List Char)) :
    placeholderValuesToTime vals =
      mkDatetime (yearOf vals) (monthOf vals) (dayOf vals) (hourOf vals)
        (minuteOf vals) (secondOf vals) 0 := rfl

theorem yearOf_rendCaps (items : List RItem) (t : PyDateTime)
    (hyr : if Token.y ∈ tokensOf items then 2000 ≤ t.year ∧ t.year ≤ 2099
      else if Token.Y ∈ tokensOf items then 1000 ≤ t.year ∧ t.year ≤ 9999
      else t.year = 1) :
    yearOf (rendCaps items t) = t.year := by
  unfold yearOf
  rw [lookupV_rendCaps, lookupV_rendCaps]
  by_cases hy : Token.y ∈ tokensOf items
  · rw [if_pos hy]
    rw [if_pos hy] at hyr
    show 2000 + parseNat (decPad 2 (t.year % 100)) = t.year
    rw [parseNat_decPad]
    omega
  · rw [if_neg hy]
    rw [if_neg hy] at hyr
    by_cases hY : Token.Y ∈ tokensOf items
    · rw [if_pos hY]
      rw [if_pos hY] at hyr
      show parseNat (decPad 4 t.year) = t.year
      exact parseNat_decPad 4 t.year
    · rw [if_neg hY]
      rw [if_neg hY] at hyr
      exact hyr.symm

theorem monthOf_rendCaps (items : List RItem) (t : PyDateTime)
    (hmo : Token.m ∈ tokensOf items ∨ t.month = 1) :
    monthOf (rendCaps items t) = t.month := by
  unfold monthOf
  rw [lookupV_rendCaps]
  by_cases hm : Token.m ∈ tokensOf items
  · rw [if_pos hm]
    exact parseNat_decPad 2 t.month
  · rw [if_neg hm]
    exact (hmo.resolve_left hm).symm

theorem dayOf_rendCaps (items : List RItem) (t : PyDateTime)
    (hda : Token.d ∈ tokensOf items ∨ t.day = 1) :
    dayOf (rendCaps items t) = t.day := by
  unfold dayOf
  rw [lookupV_rendCaps]
  by_cases hd : Token.d ∈ tokensOf items
  · rw [if_pos hd]
    exact parseNat_decPad 2 t.day
  · rw [if_neg hd]
    exact (hda.resolve_left hd).symm

theorem minuteOf_rendCaps (items : List RItem) (t : PyDateTime)
    (hmi : Token.M ∈ tokensOf items ∨ t.minute = 0) :
    minuteOf (rendCaps items t) = t.minute := by
  unfold minuteOf
  rw [lookupV_rendCaps]
  by_cases hM : Token.M ∈ tokensOf items
  · rw [if_pos hM]
    exact parseNat_decPad 2 t.minute
  · rw [if_neg hM]
    exact (hmi.resolve_left hM).symm

theorem secondOf_rendCaps (items : List RItem) (t : PyDateTime)
    (hse : Token.S ∈ tokensOf items ∨ t.second = 0) :
    secondOf (rendCaps items t) = t.second := by
  unfold secondOf
  rw [lookupV_rendCaps]
  by_cases hS : Token.S ∈ tokensOf items
  · rw [if_pos hS]
    exact parseNat_decPad 2 t.second
  · rw [if_neg hS]
    exact (hse.resolve_left hS).symm

theorem hourBase_rendCaps (items : List RItem) (t : PyDateTime) :
    hourBase (rendCaps items t) =
      if Token.I ∈ tokensOf items then hour12 t.hour
      else if Token.H ∈ tokensOf items then t.hour
      else 0 := by
  unfold hourBase
  rw [lookupV_rendCaps, lookupV_rendCaps]
  by_cases hI : Token.I ∈ tokensOf items
  · rw [if_pos hI, if_pos hI]
    exact parseNat_decPad 2 (hour12 t.hour)
  · rw [if_neg hI, if_neg hI]
    by_cases hH : Token.H ∈ tokensOf items
    · rw [if_pos hH, if_pos hH]
      exact parseNat_decPad 2 t.hour
    · rw [if_neg hH, if_neg hH]

theorem isPmVal_render (t : PyDateTime) :
    isPmVal (Token.render .p t) = decide (12 ≤ t.hour) := by
  show isPmVal (if t.hour < 12 then ['A', 'M'] else ['P', 'M']) = _
  by_cases hlt : t.hour < 12
  · rw [if_pos hlt]
    have h1 : isPmVal ['A', 'M'] = false := by decide
    rw [h1]
    have h2 : decide (12 ≤ t.hour) = false := by
      simp
      omega
    rw [h2]
  · rw [if_neg hlt]
    have h1 : isPmVal ['P', 'M'] = true := by decide
    rw [h1]
    have h2 : decide (12 ≤ t.hour) = true := by
      simp
      omega
    rw [h2]

theorem hour12_of_ne (h : Nat) (h1 : 1 ≤ h) (h2 : h ≤ 11) : hour12 h = h := by
  unfold hour12
  rw [if_neg (by omega), Nat.mod_eq_of_lt (by omega)]

theorem hourOf_rendCaps (items : List RItem) (t : PyDateTime)
    (hho : hourTokensOK (tokensOf items) t.hour) (hle : t.hour ≤ 23) :
    hourOf (rendCaps items t) = t.hour := by
  have hbase := hourBase_rendCaps items t
  unfold hourOf
  rw [lookupV_rendCaps]
  unfold hourTokensOK at hho
  by_cases hp : Token.p ∈ tokensOf items
  · rw [if_pos hp] at hho ⊢
    show hourBase (rendCaps items t) +
      (if isPmVal (Token.render .p t) then 12 else 0) = t.hour
    rw [hbase, isPmVal_render]
    simp only [decide_eq_true_eq]
    by_cases hI : Token.I ∈ tokensOf items
    · rw [if_pos hI] at hho ⊢
      obtain ⟨ha, hb, hc⟩ := hho
      unfold hour12
      by_cases h12 : 12 ≤ t.hour
      · rw [if_pos h12, if_neg (by omega : ¬ t.hour % 12 = 0)]
        omega
      · rw [if_neg h12]
        rw [if_neg (by omega : ¬ t.hour % 12 = 0), Nat.mod_eq_of_lt (by omega)]
        omega
    · rw [if_neg hI] at hho ⊢
      by_cases hH : Token.H ∈ tokensOf items
      · rw [if_pos hH] at hho ⊢
        rw [if_neg (by omega : ¬ 12 ≤ t.hour)]
        omega
      · rw [if_neg hH] at hho ⊢
        rcases hho with h0 | h12
        · rw [if_neg (by omega : ¬ 12 ≤ t.hour)]
          omega
        · rw [if_pos (by omega : 12 ≤ t.hour)]
          omega
  · rw [if_neg hp] at hho ⊢
    show hourBase (rendCaps items t) = t.hour
    rw [hbase]
    by_cases hI : Token.I ∈ tokensOf items
    · rw [if_pos hI] at hho ⊢
      obtain ⟨ha, hb⟩ := hho
      unfold hour12
      by_cases h12 : t.hour = 12
      · rw [if_pos (by omega)]
        omega
      · rw [if_neg (by omega), Nat.mod_eq_of_lt (by omega)]
    · rw [if_neg hI] at hho ⊢
      by_cases hH : Token.H ∈ tokensOf items
      · rw [if_pos hH] at hho ⊢
      · rw [if_neg hH] at hho ⊢
        exact hho.symm

theorem mkDatetime_self (t : PyDateTime) (hv : ValidDT t) (hm : t.micro = 0) :
    mkDatetime t.year t.month t.day t.hour t.minute t.second 0 = some t := by
  unfold mkDatetime
  have he : (⟨t.year, t.month, t.day, t.hour, t.minute, t.second, 0⟩ : PyDateTime)
      = t := by
    cases t
    simp_all
  rw [he]
  rw [if_pos hv]

/-- Reconstruction recovers exactly the rendered datetime when the
datetime is valid and representable by the templates tokens. -/
theorem pvToTime_rendCaps (items : List RItem) (t : PyDateTime)
    (hv : ValidDT t) (hrep : Representable (tokensOf items) t) :
    placeholderValuesToTime (rendCaps items t) = some t := by
  obtain ⟨hyr, hmo, hda, hho, hmi, hse, hus⟩ := hrep
  have hv2 := hv
  obtain ⟨b1, b2, b3, b4, b5, b6, b7, b8, b9, b10⟩ := hv2
  rw [placeholderValuesToTime_eq]
  rw [yearOf_rendCaps items t (by
    by_cases hy : Token.y ∈ tokensOf items
    · rw [if_pos hy]
      rw [if_pos hy] at hyr
      exact hyr
    · rw [if_neg hy]
      rw [if_neg hy] at hyr
      by_cases hY : Token.Y ∈ tokensOf items
      · rw [if_pos hY]
        rw [if_pos hY] at hyr
        exact ⟨hyr, b2⟩
      · rw [if_neg hY]
        rw [if_neg hY] at hyr
        exact hyr)]
  rw [monthOf_rendCaps items t hmo, dayOf_rendCaps items t hda,
    hourOf_rendCaps items t hho b7, minuteOf_rendCaps items t hmi,
    secondOf_rendCaps items t hse]
  exact mkDatetime_self t hv hus

theorem compile_placeholders (s : String) :
    (DatetimePattern.compile s).placeholders =
      tokensOf (DatetimePattern.compile s).items := rfl

/-- C1 (amended): for a template without a relative-date half, whose
literal characters are regex-neutral, in which each occurring token
occurs exactly once, and for every valid datetime whose fields are in
the ranges the reconstruction recovers (notably: hour outside {0, 12}
when %I and %p are both used, hour in 1..12 for %I without %p, hour in
{0, 12} for %p alone, hour up to 11 for %H with %p, year in 2000..2099
when %y occurs, year at least 1000 when only %Y covers it, and default
values for uncovered fields), rendering the datetime through the
template and applying DatetimePattern.match reconstructs exactly the
original datetime. -/
theorem c1_render_match_roundtrip (resolver : Resolver) (s : String)
    (t : PyDateTime)
    (hfmt : (DatetimePattern.compile s).timefmt = none)
    (hnodup : (DatetimePattern.compile s).placeholders.Nodup)
    (hsafe : SafeItems (DatetimePattern.compile s).items)
    (hv : ValidDT t)
    (hrep : Representable (DatetimePattern.compile s).placeholders t) :
    DatetimePattern.matchStr resolver (DatetimePattern.compile s)
      (String.mk (renderItems (DatetimePattern.compile s).items t)) =
      .ok (some t) := by
  have hph := compile_placeholders s
  have hm : matchItems (DatetimePattern.compile s).items
      (String.mk (renderItems (DatetimePattern.compile s).items t)).data =
      some (rendCaps (DatetimePattern.compile s).items t) := by
    show matchItems (DatetimePattern.compile s).items
      (renderItems (DatetimePattern.compile s).items t) = _
    have := matchItems_render t hv (DatetimePattern.compile s).items []
    simpa using this
  have hgpv : getPlaceholderValues (rendCaps (DatetimePattern.compile s).items t) =
      .ok (rendCaps (DatetimePattern.compile s).items t) := by
    apply getPlaceholderValues_nodup
    rw [rendCaps_keys]
    rw [hph] at hnodup
    exact hnodup
  have hpv : placeholderValuesToTime (rendCaps (DatetimePattern.compile s).items t) =
      some t := by
    apply pvToTime_rendCaps _ _ hv
    rw [hph] at hrep
    exact hrep
  unfold DatetimePattern.matchStr process
  simp only [hm, hgpv, hpv, hfmt]

/-- C1 counterexample: the valid datetime 0001-01-01 00:30:00 is
rendered by the template "%I-%M %p" (each token occurring once, all
fields covered or default) as "12-30 AM", but match reconstructs
12:30 — the %p transform adds nothing to the %I value 12, so midnight
comes back as noon and the round trip fails. -/
theorem c1_counterexample :
    DatetimePattern.matchStr (fun _ u => .ok u)
        (DatetimePattern.compile "%I-%M %p") "12-30 AM" =
      .ok (some ⟨1, 1, 1, 12, 30, 0, 0⟩) ∧
    renderItems (DatetimePattern.compile "%I-%M %p").items
      ⟨1, 1, 1, 0, 30, 0, 0⟩ = "12-30 AM".data ∧
    ValidDT ⟨1, 1, 1, 0, 30, 0, 0⟩ ∧
    (DatetimePattern.compile "%I-%M %p").placeholders.Nodup ∧
    SafeItems (DatetimePattern.compile "%I-%M %p").items ∧
    (DatetimePattern.compile "%I-%M %p").timefmt = none ∧
    (⟨1, 1, 1, 12, 30, 0, 0⟩ : PyDateTime) ≠ ⟨1, 1, 1, 0, 30, 0, 0⟩ := by
  refine ⟨rfl, rfl, by decide, by decide, by decide, rfl, by decide⟩

/-- C1 witness: the round trip at the vendor template
IMG_%Y%m%d_%H%M%S and 2023-06-15 10:15:00. -/
theorem c1_witness :
    DatetimePattern.matchStr (fun _ u => .ok u)
      (DatetimePattern.compile "IMG_%Y%m%d_%H%M%S")
      (String.mk (renderItems (DatetimePattern.compile "IMG_%Y%m%d_%H%M%S").items
        ⟨2023, 6, 15, 10, 15, 0, 0⟩)) =
      .ok (some ⟨2023, 6, 15, 10, 15, 0, 0⟩) :=
  c1_render_match_roundtrip (fun _ u => .ok u) "IMG_%Y%m%d_%H%M%S"
    ⟨2023, 6, 15, 10, 15, 0, 0⟩ rfl (by decide) (by decide) (by decide) (by decide)

/-! ## C2: duplicated token with conflicting captures -/

theorem lookupV_append (v1 v2 : List (Token × List Char)) (t : Token) :
    lookupV (v1 ++ v2) t =
      match lookupV v1 t with
      | some v => some v
      | none => lookupV v2 t := by
  induction v1 with
  | nil => rfl
  | cons p rest ih =>
    show (if p.1 = t then some p.2 else lookupV (rest ++ v2) t) = _
    by_cases h : p.1 = t
    · rw [if_pos h]
      show _ = (match (if p.1 = t then some p.2 else lookupV rest t) with
        | some v => some v
        | none => lookupV v2 t)
      rw [if_pos h]
    · rw [if_neg h, ih]
      show _ = (match (if p.1 = t then some p.2 else lookupV rest t) with
        | some v => some v
        | none => lookupV v2 t)
      rw [if_neg h]

/-- After a successful __get_placeholder_values run, the resulting
dict maps the first value of each key, and every captured pair is
consistent with it. -/
theorem gpvAux_ok_props :
    ∀ (caps vals m : List (Token × List Char)), gpvAux vals caps = .ok m →
      (∀ t v, lookupV vals t = some v → lookupV m t = some v) ∧
      (∀ pr ∈ caps, lookupV m pr.1 = some pr.2) := by
  intro caps
  induction caps with
  | nil =>
    intro vals m h
    have : vals = m := by
      simpa [gpvAux] using h
    subst this
    exact ⟨fun t v hv => hv, by simp⟩
  | cons p rest ih =>
    intro vals m h
    obtain ⟨t, v⟩ := p
    have hshape : gpvAux vals ((t, v) :: rest) =
        (match lookupV vals t with
          | some v0 => if v0 = v then gpvAux vals rest
              else Except.error "not all placeholder values are the same"
          | none => gpvAux (vals ++ [(t, v)]) rest) := rfl
    rw [hshape] at h
    rcases hl : lookupV vals t with _ | v0
    · simp only [hl] at h
      obtain ⟨p1, p2⟩ := ih (vals ++ [(t, v)]) m h
      have hpres : ∀ t2 v2, lookupV vals t2 = some v2 → lookupV m t2 = some v2 := by
        intro t2 v2 hv2
        apply p1
        rw [lookupV_append, hv2]
      refine ⟨hpres, ?_⟩
      intro pr hpr
      rcases List.mem_cons.mp hpr with he | hm2
      · subst he
        apply p1
        rw [lookupV_append, hl]
        show (if t = t then some v else none) = some v
        rw [if_pos rfl]
      · exact p2 pr hm2
    · simp only [hl] at h
      by_cases he : v0 = v
      · rw [if_pos he] at h
        obtain ⟨p1, p2⟩ := ih vals m h
        refine ⟨p1, ?_⟩
        intro pr hpr
        rcases List.mem_cons.mp hpr with hh | hm2
        · subst hh
          subst he
          exact p1 t v0 hl
        · exact p2 pr hm2
      · rw [if_neg he] at h
        exact absurd h (by simp)

theorem gpvAux_error_msg :
    ∀ (caps vals : List (Token × List Char)) (e : String),
      gpvAux vals caps = .error e →
      e = "not all placeholder values are the same" := by
  intro caps
  induction caps with
  | nil =>
    intro vals e h
    simp [gpvAux] at h
  | cons p rest ih =>
    intro vals e h
    obtain ⟨t, v⟩ := p
    have hshape : gpvAux vals ((t, v) :: rest) =
        (match lookupV vals t with
          | some v0 => if v0 = v then gpvAux vals rest
              else Except.error "not all placeholder values are the same"
          | none => gpvAux (vals ++ [(t, v)]) rest) := rfl
    rw [hshape] at h
    rcases hl : lookupV vals t with _ | v0
    · simp only [hl] at h
      exact ih _ _ h
    · simp only [hl] at h
      by_cases he : v0 = v
      · rw [if_pos he] at h
        exact ih _ _ h
      · rw [if_neg he] at h
        have h2 := h.symm
        simp only [Except.error.injEq] at h2
        exact h2

/-- Conflicting captures of one token make __get_placeholder_values
raise the fixed ValueError. -/
theorem getPlaceholderValues_conflict (caps : List (Token × List Char))
    (t : Token) (v1 v2 : List Char) (h1 : (t, v1) ∈ caps) (h2 : (t, v2) ∈ caps)
    (hne : v1 ≠ v2) :
    getPlaceholderValues caps = .error "not all placeholder values are the same" := by
  rcases hres : getPlaceholderValues caps with e | m
  · rw [gpvAux_error_msg caps [] e hres]
  · exfalso
    obtain ⟨-, p2⟩ := gpvAux_ok_props caps [] m hres
    have e1 := p2 (t, v1) h1
    have e2 := p2 (t, v2) h2
    rw [e1] at e2
    exact hne (Option.some_injective _ e2)

/-- C2 (amended): when a template captures the same token twice with
textually different values on a matching input, the match is not
silently resolved: DatetimePattern.match and DatetimePattern.search
raise ValueError("not all placeholder values are the same"), which
propagates to the caller (rather than the claimed absent result). -/
theorem c2_duplicate_conflict_raises (resolver : Resolver)
    (p : DatetimePattern) (s : String) :
    (∀ caps t v1 v2, matchItems p.items s.data = some caps →
      (t, v1) ∈ caps → (t, v2) ∈ caps → v1 ≠ v2 →
      DatetimePattern.matchStr resolver p s =
        .error "not all placeholder values are the same") ∧
    (∀ caps t v1 v2, searchItems p.items s.data = some caps →
      (t, v1) ∈ caps → (t, v2) ∈ caps → v1 ≠ v2 →
      DatetimePattern.searchStr resolver p s =
        .error "not all placeholder values are the same") := by
  constructor
  · intro caps t v1 v2 hm h1 h2 hne
    unfold DatetimePattern.matchStr process
    simp only [hm, getPlaceholderValues_conflict caps t v1 v2 h1 h2 hne]
  · intro caps t v1 v2 hm h1 h2 hne
    unfold DatetimePattern.searchStr process
    simp only [hm, getPlaceholderValues_conflict caps t v1 v2 h1 h2 hne]

/-- C2 counterexample: the compiled template "%Y-%Y" on "2020-2021"
matches with the two %Y groups capturing 2020 and 2021; match and
search return the raised ValueError, not the absent value the claim
promises. -/
theorem c2_counterexample :
    DatetimePattern.matchStr (fun _ u => .ok u)
        (DatetimePattern.compile "%Y-%Y") "2020-2021" =
      .error "not all placeholder values are the same" ∧
    DatetimePattern.searchStr (fun _ u => .ok u)
        (DatetimePattern.compile "%Y-%Y") "2020-2021" =
      .error "not all placeholder values are the same" ∧
    (Except.error "not all placeholder values are the same" ≠
      (.ok none : Except String (Option PyDateTime))) := by
  refine ⟨rfl, rfl, by simp⟩

/-! ## C3: zero-placeholder templates -/

theorem compileChars_no_tokens :
    ∀ l : List Char, tokensOf (compileChars l) = [] →
      compileChars l = l.map RItem.lit := by
  intro l
  induction l with
  | nil => intro _; rfl
  | cons a l2 ih =>
    intro hz
    cases l2 with
    | nil => rfl
    | cons c rest =>
      by_cases ha : a = '%'
      · subst ha
        rcases htk : tokenOfChar c with _ | tk
        · have hc : compileChars ('%' :: c :: rest) =
              RItem.lit '%' :: compileChars (c :: rest) := by
            show (if '%' = '%' then
                match tokenOfChar c with
                | some t => RItem.group t :: compileChars rest
                | none => RItem.lit '%' :: compileChars (c :: rest)
              else RItem.lit '%' :: compileChars (c :: rest)) = _
            rw [if_pos rfl, htk]
          rw [hc] at hz ⊢
          have hz2 : tokensOf (compileChars (c :: rest)) = [] := by
            simpa [tokensOf] using hz
          rw [ih hz2]
          rfl
        · exfalso
          have hc : compileChars ('%' :: c :: rest) =
              RItem.group tk :: compileChars rest := by
            show (if '%' = '%' then
                match tokenOfChar c with
                | some t => RItem.group t :: compileChars rest
                | none => RItem.lit '%' :: compileChars (c :: rest)
              else RItem.lit '%' :: compileChars (c :: rest)) = _
            rw [if_pos rfl, htk]
          rw [hc] at hz
          simp [tokensOf] at hz
      · have hc : compileChars (a :: c :: rest) =
            RItem.lit a :: compileChars (c :: rest) := by
          show (if a = '%' then
              match tokenOfChar c with
              | some t => RItem.group t :: compileChars rest
              | none => RItem.lit '%' :: compileChars (c :: rest)
            else RItem.lit a :: compileChars (c :: rest)) = _
          rw [if_neg ha]
        rw [hc] at hz ⊢
        have hz2 : tokensOf (compileChars (c :: rest)) = [] := by
          simpa [tokensOf] using hz
        rw [ih hz2]
        rfl

theorem matchItems_lits (lits : List Char) :
    ∀ s, matchItems (lits.map RItem.lit) (lits ++ s) = some [] := by
  induction lits with
  | nil => intro s; rfl
  | cons c rest ih =>
    intro s
    show (if c = c then matchItems (rest.map RItem.lit) (rest ++ s) else none) = _
    rw [if_pos rfl, ih s]

theorem matchItems_all_lit_caps (lits : List Char) :
    ∀ s caps, matchItems (lits.map RItem.lit) s = some caps → caps = [] := by
  induction lits with
  | nil =>
    intro s caps h
    simpa [matchItems] using h.symm
  | cons c rest ih =>
    intro s caps h
    cases s with
    | nil => exact absurd h (by simp [matchItems])
    | cons c2 s2 =>
      have hshape : matchItems ((c :: rest).map RItem.lit) (c2 :: s2) =
          (if c = c2 then matchItems (rest.map RItem.lit) s2 else none) := rfl
      rw [hshape] at h
      by_cases he : c = c2
      · rw [if_pos he] at h
        exact ih s2 caps h
      · rw [if_neg he] at h
        exact absurd h (by simp)

theorem searchItems_all_lit_caps (lits : List Char) :
    ∀ s caps, searchItems (lits.map RItem.lit) s = some caps → caps = [] := by
  intro s
  induction s with
  | nil =>
    intro caps h
    exact matchItems_all_lit_caps lits [] caps h
  | cons c rest ih =>
    intro caps h
    have hshape : searchItems (lits.map RItem.lit) (c :: rest) =
        (match matchItems (lits.map RItem.lit) (c :: rest) with
          | some caps2 => some caps2
          | none => searchItems (lits.map RItem.lit) rest) := rfl
    rw [hshape] at h
    rcases hm : matchItems (lits.map RItem.lit) (c :: rest) with _ | caps2
    · simp only [hm] at h
      exact ih caps h
    · simp only [hm] at h
      have heq := Option.some_injective _ h
      rw [← heq]
      exact matchItems_all_lit_caps lits (c :: rest) caps2 hm

theorem searchItems_isSome_of_matchable (items : List RItem) :
    ∀ (pre rest : List Char), (matchItems items rest).isSome →
      (searchItems items (pre ++ rest)).isSome := by
  intro pre
  induction pre with
  | nil =>
    intro rest h
    cases rest with
    | nil => exact h
    | cons c s2 =>
      show (match matchItems items (c :: s2) with
        | some caps => some caps
        | none => searchItems items s2).isSome
      rcases hm : matchItems items (c :: s2) with _ | caps
      · rw [hm] at h
        simp at h
      · simp only [hm]
        rfl
  | cons c pre2 ih =>
    intro rest h
    show (match matchItems items (c :: (pre2 ++ rest)) with
      | some caps => some caps
      | none => searchItems items (pre2 ++ rest)).isSome
    rcases hm : matchItems items (c :: (pre2 ++ rest)) with _ | caps
    · simp only [hm]
      exact ih rest h
    · simp only [hm]
      rfl

theorem compile_items_of_no_timefmt (s : String)
    (h : (DatetimePattern.compile s).timefmt = none) :
    (DatetimePattern.compile s).items = compileChars s.data := by
  unfold DatetimePattern.compile splitTemplate at h ⊢
  rcases hs : splitSemi s.data with _ | ⟨a, rest⟩
  · rfl
  · cases rest with
    | nil => rfl
    | cons b rest2 =>
      cases rest2 with
      | nil =>
        rw [hs] at h
        simp at h
      | cons x xs => rfl

/-- C3 (confirmed, on the embedded fragment): a compiled template with
zero placeholder tokens, no relative-date half, and regex-neutral
characters matches wherever its literal text occurs in the input, and
search then always returns the all-default datetime 0001-01-01
00:00:00, never absent. -/
theorem c3_zero_placeholder_default (resolver : Resolver) (s input : String)
    (hfmt : (DatetimePattern.compile s).timefmt = none)
    (hzero : tokensOf (DatetimePattern.compile s).items = [])
    (hsafe : SafeItems (DatetimePattern.compile s).items)
    (hsub : ∃ pre post, input.data = pre ++ (s.data ++ post)) :
    DatetimePattern.searchStr resolver (DatetimePattern.compile s) input =
      .ok (some ⟨1, 1, 1, 0, 0, 0, 0⟩) := by
  obtain ⟨pre, post, hin⟩ := hsub
  have hitems : (DatetimePattern.compile s).items = s.data.map RItem.lit := by
    rw [compile_items_of_no_timefmt s hfmt]
    rw [compile_items_of_no_timefmt s hfmt] at hzero
    exact compileChars_no_tokens s.data hzero
  have hmatch : (matchItems (DatetimePattern.compile s).items (s.data ++ post)).isSome := by
    rw [hitems, matchItems_lits s.data post]
    rfl
  have hsearch : (searchItems (DatetimePattern.compile s).items input.data).isSome := by
    rw [hin]
    exact searchItems_isSome_of_matchable _ pre (s.data ++ post) hmatch
  rcases hres : searchItems (DatetimePattern.compile s).items input.data with _ | caps
  · rw [hres] at hsearch
    simp at hsearch
  · have hcaps : caps = [] := by
      apply searchItems_all_lit_caps s.data input.data caps
      rw [hitems] at hres
      exact hres
    subst hcaps
    unfold DatetimePattern.searchStr process
    rw [hres]
    have hgpv : getPlaceholderValues ([] : List (Token × List Char)) = .ok [] := rfl
    have hpv : placeholderValuesToTime ([] : List (Token × List Char)) =
        some ⟨1, 1, 1, 0, 0, 0, 0⟩ := by decide
    simp only [hgpv, hpv, hfmt]

/-- C3 witness: the zero-placeholder template "WhatsApp" found inside
"xx WhatsApp yy" yields 0001-01-01 00:00:00. -/
theorem c3_witness :
    DatetimePattern.searchStr (fun _ u => .ok u)
      (DatetimePattern.compile "WhatsApp") "xx WhatsApp yy" =
      .ok (some ⟨1, 1, 1, 0, 0, 0, 0⟩) :=
  c3_zero_placeholder_default (fun _ u => .ok u) "WhatsApp" "xx WhatsApp yy"
    rfl (by decide) (by decide)
    ⟨"xx ".data, " yy".data, by decide⟩

/-- C2 witness: the amended statement applied at the template "%Y-%Y"
and input "2020-2021". -/
theorem c2_witness :
    DatetimePattern.matchStr (fun _ u => .ok u)
      (DatetimePattern.compile "%Y-%Y") "2020-2021" =
      .error "not all placeholder values are the same" :=
  (c2_duplicate_conflict_raises (fun _ u => .ok u)
      (DatetimePattern.compile "%Y-%Y") "2020-2021").1
    [(.Y, ['2', '0', '2', '0']), (.Y, ['2', '0', '2', '1'])] .Y
    ['2', '0', '2', '0'] ['2', '0', '2', '1'] rfl (by decide) (by decide)
    (by decide)

/-! ## SpanSelector (MediaFile.get_span and MediaFile.__get_pattern)

The difftime attribute is modelled as an Option ℚ (Python float spread
in days, or None); Python truthiness makes both None and 0.0 falsy in
the `if self.__difftime:` guard. -/

def DEFAULT_SPAN : String := "default"

/-- MediaFile.SPANS, in declaration order. -/
def SPANS : List (String × ℚ) := [("day", 1), ("month", 30), ("year", 365)]

/-- The span loop of MediaFile.get_span: first span name whose
threshold strictly exceeds the spread. -/
def spanFind (dt : ℚ) : List (String × ℚ) → Option String
  | [] => none
  | (name, maxdiff) :: rest => if dt < maxdiff then some name else spanFind dt rest

/-- MediaFile.get_span. -/
def get_span (difftime : Option ℚ) : String :=
  match difftime with
  | none => DEFAULT_SPAN
  | some dt =>
    if dt = 0 then DEFAULT_SPAN
    else
      match spanFind dt SPANS with
      | some name => name
      | none => DEFAULT_SPAN

/-- Dict lookup keyed by span name (patterns dict). -/
def lookupStr {α : Type} (ps : List (String × α)) (k : String) : Option α :=
  match ps with
  | [] => none
  | (k2, v) :: rest => if k2 = k then some v else lookupStr rest k

/-- The span loop of MediaFile.__get_pattern: a span whose threshold
exceeds the spread is skipped when absent from the patterns dict. -/
def spanPatternLoop {α : Type} (dt : ℚ) (ps : List (String × α)) :
    List (String × ℚ) → Option α
  | [] => none
  | (name, maxdiff) :: rest =>
    if dt < maxdiff then
      match lookupStr ps name with
      | some p => some p
      | none => spanPatternLoop dt ps rest
    else spanPatternLoop dt ps rest

/-- MediaFile.__get_pattern. -/
def getPatternForSpan {α : Type} (difftime : Option ℚ) (ps : List (String × α)) :
    Option α :=
  let viaSpans : Option α :=
    match difftime with
    | none => none
    | some dt => if dt = 0 then none else spanPatternLoop dt ps SPANS
  match viaSpans with
  | some p => some p
  | none => lookupStr ps DEFAULT_SPAN

/-- Modelled from the spec (the selection rule C4 asserts): return the
first span name whose threshold is strictly greater than the spread;
default when the spread is absent or no threshold exceeds it. -/
def specSpanSelect (spread : Option ℚ) : String :=
  match spread with
  | none => DEFAULT_SPAN
  | some dt =>
    match spanFind dt SPANS with
    | some name => name
    | none => DEFAULT_SPAN

/-- C4 counterexample: a resolved spread of 0 days (two siblings with
identical timestamps) is falsy in Python, so get_span returns
"default", while the claimed rule (first threshold strictly greater
than the spread) selects "day" because 0 < 1. -/
theorem c4_counterexample :
    get_span (some 0) = "default" ∧ specSpanSelect (some 0) = "day" ∧
    ("default" : String) ≠ "day" ∧
    getPatternForSpan (some 0) [("day", 1), ("default", 2)] = some 2 := by
  refine ⟨rfl, by norm_num [specSpanSelect, spanFind, SPANS], by decide, rfl⟩

/-- C4 (amended): span selection follows the claimed
first-threshold-strictly-greater rule for nonzero spreads, with the
particulars 0.5 selecting day and 40 selecting year, and returns
default when the spread is absent, when no threshold exceeds it, and
also when the spread is exactly 0 (Python truthiness of 0.0); the
pattern variant falls back to the default template likewise. -/
theorem c4_span_selection :
    get_span none = DEFAULT_SPAN ∧
    get_span (some 0) = DEFAULT_SPAN ∧
    (∀ dt : ℚ, dt ≠ 0 → get_span (some dt) = specSpanSelect (some dt)) ∧
    get_span (some (1 / 2)) = "day" ∧
    get_span (some 40) = "year" ∧
    (∀ dt : ℚ, 365 ≤ dt → get_span (some dt) = DEFAULT_SPAN) ∧
    (∀ (α : Type) (ps : List (String × α)),
      getPatternForSpan none ps = lookupStr ps DEFAULT_SPAN ∧
      getPatternForSpan (some 0) ps = lookupStr ps DEFAULT_SPAN) := by
  refine ⟨rfl, rfl, ?_, ?_, ?_, ?_, ?_⟩
  · intro dt hne
    simp only [get_span, specSpanSelect]
    rw [if_neg hne]
  · norm_num [get_span, spanFind, SPANS]
  · norm_num [get_span, spanFind, SPANS]
  · intro dt hge
    simp only [get_span, SPANS, spanFind]
    rw [if_neg (by intro h; rw [h] at hge; norm_num at hge),
      if_neg (by linarith), if_neg (by linarith), if_neg (by linarith)]
  · intro α ps
    exact ⟨rfl, rfl⟩

/-- C4 witness: the amended statement applied at spread 7 selects the
month span, matching the rule. -/
theorem c4_witness : get_span (some 7) = specSpanSelect (some 7) :=
  (c4_span_selection.2.2.1) 7 (by norm_num)

/-! ## DirectoryTimeAggregator (Organizer.__load_dir)

Sibling resolution results are modelled as Option ℚ POSIX timestamps
(None when a sibling's own resolution failed); datetime.fromtimestamp
is the external injective clock conversion and is left at the
timestamp level. -/

structure DirAcc where
  sumtime : ℚ
  count : Nat
  mintime : Option ℚ
  maxtime : Option ℚ
deriving Repr, DecidableEq

def dirInit : DirAcc := ⟨0, 0, none, none⟩

/-- Loop body of Organizer.__load_dir for one direct sibling file. -/
def dirStep (acc : DirAcc) (ts : Option ℚ) : DirAcc :=
  match ts with
  | none => acc
  | some v =>
    { sumtime := acc.sumtime + v
      count := acc.count + 1
      mintime :=
        match acc.mintime with
        | none => some v
        | some mn => if v < mn then some v else some mn
      maxtime :=
        match acc.maxtime with
        | none => some v
        | some mx => if v > mx then some v else some mx }

/-- Organizer.__load_dir over the resolved times of the directory's
direct sibling files: (mean timestamp or absent, spread in days or
absent).  The `if maxtime and mintime:` guard makes a 0.0 extremum
falsy, exactly as in Python. -/
def loadDir (times : List (Option ℚ)) : Option ℚ × Option ℚ :=
  let acc := times.foldl dirStep dirInit
  let difftime : Option ℚ :=
    match acc.maxtime, acc.mintime with
    | some mx, some mn =>
      if mx ≠ 0 ∧ mn ≠ 0 then some ((mx - mn) / (60 * 60 * 24)) else none
    | _, _ => none
  let avg : Option ℚ :=
    if acc.count = 0 then none else some (acc.sumtime / acc.count)
  (avg, difftime)

/-- C5 counterexample: a single contributing sibling (timestamp 100)
produces spread some 0, not the absent spread the claim requires for
fewer than 2 contributing siblings. -/
theorem c5_counterexample :
    loadDir [some 100] = (some 100, some 0) ∧
    (loadDir [some 100]).2 ≠ none := by
  have h1 : loadDir [some 100] = (some 100, some 0) := by
    norm_num [loadDir, dirStep, dirInit]
  refine ⟨h1, ?_⟩
  rw [h1]
  simp

def foldMin : Option ℚ → List ℚ → Option ℚ
  | o, [] => o
  | none, v :: rest => foldMin (some v) rest
  | some m, v :: rest => foldMin (some (if v < m then v else m)) rest

def foldMax : Option ℚ → List ℚ → Option ℚ
  | o, [] => o
  | none, v :: rest => foldMax (some v) rest
  | some m, v :: rest => foldMax (some (if v > m then v else m)) rest

theorem foldl_dirStep_count :
    ∀ (times : List (Option ℚ)) (acc : DirAcc),
      (times.foldl dirStep acc).count = acc.count + (times.filterMap id).length := by
  intro times
  induction times with
  | nil => intro acc; simp
  | cons t rest ih =>
    intro acc
    cases t with
    | none =>
      show (rest.foldl dirStep acc).count = _
      rw [ih]
      simp
    | some v =>
      show (rest.foldl dirStep (dirStep acc (some v))).count = _
      rw [ih]
      show acc.count + 1 + (rest.filterMap id).length = _
      simp
      omega

theorem foldl_dirStep_sum :
    ∀ (times : List (Option ℚ)) (acc : DirAcc),
      (times.foldl dirStep acc).sumtime = acc.sumtime + (times.filterMap id).sum := by
  intro times
  induction times with
  | nil => intro acc; simp
  | cons t rest ih =>
    intro acc
    cases t with
    | none =>
      show (rest.foldl dirStep acc).sumtime = _
      rw [ih]
      simp
    | some v =>
      show (rest.foldl dirStep (dirStep acc (some v))).sumtime = _
      rw [ih]
      show acc.sumtime + v + (rest.filterMap id).sum = _
      simp
      ring

theorem foldl_dirStep_min :
    ∀ (times : List (Option ℚ)) (acc : DirAcc),
      (times.foldl dirStep acc).mintime = foldMin acc.mintime (times.filterMap id) := by
  intro times
  induction times with
  | nil => intro acc; simp [foldMin]
  | cons t rest ih =>
    intro acc
    cases t with
    | none =>
      show (rest.foldl dirStep acc).mintime = _
      rw [ih]
      simp
    | some v =>
      show (rest.foldl dirStep (dirStep acc (some v))).mintime = _
      rw [ih]
      have hfm : List.filterMap id (some v :: rest) = v :: rest.filterMap id := by simp
      rw [hfm]
      have hstep : (dirStep acc (some v)).mintime =
          (match acc.mintime with
            | none => some v
            | some mn => if v < mn then some v else some mn) := rfl
      rw [hstep]
      cases hm : acc.mintime with
      | none => rfl
      | some mn =>
        show foldMin (if v < mn then some v else some mn) (List.filterMap id rest) =
          foldMin (some (if v < mn then v else mn)) (List.filterMap id rest)
        by_cases h : v < mn
        · rw [if_pos h, if_pos h]
        · rw [if_neg h, if_neg h]

theorem foldl_dirStep_max :
    ∀ (times : List (Option ℚ)) (acc : DirAcc),
      (times.foldl dirStep acc).maxtime = foldMax acc.maxtime (times.filterMap id) := by
  intro times
  induction times with
  | nil => intro acc; simp [foldMax]
  | cons t rest ih =>
    intro acc
    cases t with
    | none =>
      show (rest.foldl dirStep acc).maxtime = _
      rw [ih]
      simp
    | some v =>
      show (rest.foldl dirStep (dirStep acc (some v))).maxtime = _
      rw [ih]
      have hfm : List.filterMap id (some v :: rest) = v :: rest.filterMap id := by simp
      rw [hfm]
      have hstep : (dirStep acc (some v)).maxtime =
          (match acc.maxtime with
            | none => some v
            | some mx => if v > mx then some v else some mx) := rfl
      rw [hstep]
      cases hm : acc.maxtime with
      | none => rfl
      | some mx =>
        show foldMax (if v > mx then some v else some mx) (List.filterMap id rest) =
          foldMax (some (if v > mx then v else mx)) (List.filterMap id rest)
        by_cases h : v > mx
        · rw [if_pos h, if_pos h]
        · rw [if_neg h, if_neg h]

theorem foldMin_some_pos :
    ∀ (l : List ℚ) (m : ℚ), (∀ x ∈ l, 0 < x) → 0 < m →
      ∃ r, foldMin (some m) l = some r ∧ 0 < r := by
  intro l
  induction l with
  | nil => intro m _ hm; exact ⟨m, rfl, hm⟩
  | cons v rest ih =>
    intro m hall hm
    show ∃ r, foldMin (some (if v < m then v else m)) rest = some r ∧ 0 < r
    apply ih _ (fun x hx => hall x (by simp [hx]))
    by_cases h : v < m
    · rw [if_pos h]
      exact hall v (by simp)
    · rw [if_neg h]
      exact hm

theorem foldMax_some_pos :
    ∀ (l : List ℚ) (m : ℚ), (∀ x ∈ l, 0 < x) → 0 < m →
      ∃ r, foldMax (some m) l = some r ∧ 0 < r := by
  intro l
  induction l with
  | nil => intro m _ hm; exact ⟨m, rfl, hm⟩
  | cons v rest ih =>
    intro m hall hm
    show ∃ r, foldMax (some (if v > m then v else m)) rest = some r ∧ 0 < r
    apply ih _ (fun x hx => hall x (by simp [hx]))
    by_cases h : v > m
    · rw [if_pos h]
      exact hall v (by simp)
    · rw [if_neg h]
      exact hm

theorem filterMap_id_map_some (l : List ℚ) : (l.map some).filterMap id = l := by
  induction l with
  | nil => rfl
  | cons v rest ih => simp [ih]

/-- The mean component of loadDir, in closed form. -/
theorem loadDir_mean (times : List (Option ℚ)) :
    (loadDir times).1 =
      (if (times.filterMap id).length = 0 then none
       else some ((times.filterMap id).sum / (times.filterMap id).length)) := by
  show (if (times.foldl dirStep dirInit).count = 0 then none
    else some ((times.foldl dirStep dirInit).sumtime / (times.foldl dirStep dirInit).count)) = _
  rw [foldl_dirStep_count, foldl_dirStep_sum]
  show (if 0 + (times.filterMap id).length = 0 then none
    else some ((0 + (times.filterMap id).sum) / (0 + (times.filterMap id).length : Nat))) = _
  norm_num

/-- C5 (amended): directory aggregation returns mean = sum/count of
the contributing sibling timestamps, absent only when no sibling
contributed; the spread (max - min in days) is present already with a
single contributing sibling (value 0), not only with two or more; the
three-sibling example of the claim holds. -/
theorem c5_directory_aggregation :
    loadDir [] = (none, none) ∧
    (∀ times : List (Option ℚ),
      (loadDir times).1 =
        (if (times.filterMap id).length = 0 then none
         else some ((times.filterMap id).sum / (times.filterMap id).length))) ∧
    (∀ ts : ℚ, ts ≠ 0 → loadDir [some ts] = (some ts, some 0)) ∧
    (∀ l : List ℚ, (∀ x ∈ l, 0 < x) → l ≠ [] →
      ((loadDir (l.map some)).2).isSome) ∧
    (∀ τ : ℚ, 0 < τ →
      loadDir [some τ, some (τ + 172800), some (τ + 345600)] =
        (some (τ + 172800), some 4)) := by
  refine ⟨rfl, loadDir_mean, ?_, ?_, ?_⟩
  · intro ts hne
    have hacc : List.foldl dirStep dirInit [some ts] = ⟨0 + ts, 0 + 1, some ts, some ts⟩ := rfl
    show (if (List.foldl dirStep dirInit [some ts]).count = 0 then none
        else some ((List.foldl dirStep dirInit [some ts]).sumtime /
          ((List.foldl dirStep dirInit [some ts]).count : ℚ)),
      match (List.foldl dirStep dirInit [some ts]).maxtime,
        (List.foldl dirStep dirInit [some ts]).mintime with
      | some mx, some mn =>
        if mx ≠ 0 ∧ mn ≠ 0 then some ((mx - mn) / (60 * 60 * 24)) else none
      | _, _ => none) = (some ts, some 0)
    rw [hacc]
    show (if (0 + 1 : Nat) = 0 then none else some ((0 + ts) / ((0 + 1 : Nat) : ℚ)),
      if ts ≠ 0 ∧ ts ≠ 0 then some ((ts - ts) / (60 * 60 * 24)) else none) =
      (some ts, some 0)
    rw [if_neg (by norm_num), if_pos ⟨hne, hne⟩]
    norm_num
  · intro l hall hne
    have hmin : (loadDir (l.map some)).2 =
        (match foldMax none l, foldMin none l with
          | some mx, some mn =>
            if mx ≠ 0 ∧ mn ≠ 0 then some ((mx - mn) / (60 * 60 * 24)) else none
          | _, _ => none) := by
      show (match ((l.map some).foldl dirStep dirInit).maxtime,
          ((l.map some).foldl dirStep dirInit).mintime with
        | some mx, some mn =>
          if mx ≠ 0 ∧ mn ≠ 0 then some ((mx - mn) / (60 * 60 * 24)) else none
        | _, _ => none) = _
      rw [foldl_dirStep_min, foldl_dirStep_max, filterMap_id_map_some]
      rfl
    rw [hmin]
    cases l with
    | nil => exact absurd rfl hne
    | cons v rest =>
      have hv : 0 < v := hall v (by simp)
      obtain ⟨mx, hmx, hmxpos⟩ := foldMax_some_pos rest v
        (fun x hx => hall x (by simp [hx])) hv
      obtain ⟨mn, hmn, hmnpos⟩ := foldMin_some_pos rest v
        (fun x hx => hall x (by simp [hx])) hv
      show (match foldMax (some v) rest, foldMin (some v) rest with
        | some mx, some mn =>
          if mx ≠ 0 ∧ mn ≠ 0 then some ((mx - mn) / (60 * 60 * 24)) else none
        | _, _ => none).isSome
      rw [hmx, hmn]
      show (if mx ≠ 0 ∧ mn ≠ 0 then some ((mx - mn) / (60 * 60 * 24)) else none).isSome
      rw [if_pos ⟨ne_of_gt hmxpos, ne_of_gt hmnpos⟩]
      rfl
  · intro τ hτ
    have h1 : dirStep dirInit (some τ) = ⟨0 + τ, 0 + 1, some τ, some τ⟩ := rfl
    have h2 : dirStep ⟨0 + τ, 0 + 1, some τ, some τ⟩ (some (τ + 172800)) =
        ⟨0 + τ + (τ + 172800), 0 + 1 + 1, some τ, some (τ + 172800)⟩ := by
      show (⟨0 + τ + (τ + 172800), 0 + 1 + 1,
        if τ + 172800 < τ then some (τ + 172800) else some τ,
        if τ + 172800 > τ then some (τ + 172800) else some τ⟩ : DirAcc) = _
      rw [if_neg (by linarith), if_pos (by linarith)]
    have h3 : dirStep ⟨0 + τ + (τ + 172800), 0 + 1 + 1, some τ, some (τ + 172800)⟩
        (some (τ + 345600)) =
        ⟨0 + τ + (τ + 172800) + (τ + 345600), 0 + 1 + 1 + 1, some τ,
          some (τ + 345600)⟩ := by
      show (⟨0 + τ + (τ + 172800) + (τ + 345600), 0 + 1 + 1 + 1,
        if τ + 345600 < τ then some (τ + 345600) else some τ,
        if τ + 345600 > τ + 172800 then some (τ + 345600) else some (τ + 172800)⟩ :
          DirAcc) = _
      rw [if_neg (by linarith), if_pos (by linarith)]
    have hacc : List.foldl dirStep dirInit
        [some τ, some (τ + 172800), some (τ + 345600)] =
        ⟨0 + τ + (τ + 172800) + (τ + 345600), 0 + 1 + 1 + 1, some τ,
          some (τ + 345600)⟩ := by
      show dirStep (dirStep (dirStep dirInit (some τ)) (some (τ + 172800)))
        (some (τ + 345600)) = _
      rw [h1, h2, h3]
    set L : List (Option ℚ) := [some τ, some (τ + 172800), some (τ + 345600)] with hL
    show (if (List.foldl dirStep dirInit L).count = 0 then none
        else some ((List.foldl dirStep dirInit L).sumtime /
          ((List.foldl dirStep dirInit L).count : ℚ)),
      match (List.foldl dirStep dirInit L).maxtime,
        (List.foldl dirStep dirInit L).mintime with
      | some mx, some mn =>
        if mx ≠ 0 ∧ mn ≠ 0 then some ((mx - mn) / (60 * 60 * 24)) else none
      | _, _ => none) = (some (τ + 172800), some 4)
    rw [hacc]
    show (if (0 + 1 + 1 + 1 : Nat) = 0 then none
        else some ((0 + τ + (τ + 172800) + (τ + 345600)) / ((0 + 1 + 1 + 1 : Nat) : ℚ)),
      if τ + 345600 ≠ 0 ∧ τ ≠ 0 then some ((τ + 345600 - τ) / (60 * 60 * 24))
      else none) = (some (τ + 172800), some 4)
    rw [if_neg (by norm_num), if_pos ⟨by linarith, by linarith⟩]
    have hmean : (0 + τ + (τ + 172800) + (τ + 345600)) / ((0 + 1 + 1 + 1 : Nat) : ℚ) =
        τ + 172800 := by
      push_cast
      ring_nf
    have hspread : (τ + 345600 - τ) / (60 * 60 * 24) = (4 : ℚ) := by
      ring_nf
    rw [hmean, hspread]

/-- C5 witness: the amended statement at the three siblings of the
claim's example, timestamps 1577836800 (2020-01-01 00:00 UTC),
1578009600 (2020-01-03) and 1578182400 (2020-01-05): mean is
1578009600 (2020-01-03) and spread is 4 days. -/
theorem c5_witness :
    loadDir [some 1577836800, some (1577836800 + 172800),
      some (1577836800 + 345600)] = (some (1577836800 + 172800), some 4) :=
  c5_directory_aggregation.2.2.2.2 1577836800 (by norm_num)

/-! ## Path helpers (os.path.splitext, join, basename, relpath)

Modelled for POSIX separators.  splitext follows CPython: the
extension starts at the last dot after the last slash, unless the
basename consists only of dots up to there. -/

/-- Last index of a character in a list, if any. -/
def lastIdxOf (c : Char) : List Char → Option Nat
  | [] => none
  | a :: rest =>
    match lastIdxOf c rest with
    | some i => some (i + 1)
    | none => if a = c then some 0 else none

/-- The index at which os.path.splitext separates the extension, when
it does: the last dot after the last slash, provided the basename has
a non-dot character before it. -/
def splitDotIdx (p : List Char) : Option Nat :=
  let sepIndex : Int :=
    match lastIdxOf '/' p with
    | some i => (i : Int)
    | none => -1
  let dotIndex : Int :=
    match lastIdxOf '.' p with
    | some i => (i : Int)
    | none => -1
  if dotIndex > sepIndex ∧
      ((p.drop (sepIndex + 1).toNat).take (dotIndex - sepIndex - 1).toNat).any
        (fun c => c ≠ '.') then
    some dotIndex.toNat
  else none

/-- os.path.splitext on the characters of a path. -/
def splitextChars (p : List Char) : List Char × List Char :=
  match splitDotIdx p with
  | some n => (p.take n, p.drop n)
  | none => (p, [])

/-- os.path.splitext. -/
def splitext (p : String) : String × String :=
  let r := splitextChars p.data
  (String.mk r.1, String.mk r.2)

/-- os.path.basename (POSIX). -/
def basename (p : String) : String :=
  match lastIdxOf '/' p.data with
  | some i => String.mk (p.data.drop (i + 1))
  | none => p

/-- os.path.join for two components (POSIX): an absolute right side
discards the left side. -/
def pathJoin (a b : String) : String :=
  if b.data.head? = some '/' then b
  else if a = "" then b
  else if a.data.getLast? = some '/' then a ++ b
  else a ++ "/" ++ b

def splitSlashAux : List Char → List Char → List (List Char)
  | [], acc => [acc.reverse]
  | '/' :: rest, acc => acc.reverse :: splitSlashAux rest []
  | c :: rest, acc => splitSlashAux rest (c :: acc)

def splitSlash (l : List Char) : List (List Char) := splitSlashAux l []

/-- Split a path into components on '/', dropping empty parts and
single dots (the normalization os.path.relpath applies). -/
def splitParts (p : String) : List (List Char) :=
  (splitSlash p.data).filter (fun part => part ≠ [] ∧ part ≠ ['.'])

def commonPrefixLen : List (List Char) → List (List Char) → Nat
  | a :: as, b :: bs => if a = b then commonPrefixLen as bs + 1 else 0
  | _, _ => 0

def joinParts : List (List Char) → List Char
  | [] => []
  | [a] => a
  | a :: rest => a ++ '/' :: joinParts rest

/-- os.path.relpath path start, for relative inputs without ".."
components (the scope the Organizer exercises). -/
def relpath (path start : String) : String :=
  let p := splitParts path
  let s := splitParts start
  let c := commonPrefixLen p s
  let parts := List.replicate (s.length - c) ['.', '.'] ++ p.drop c
  if parts = [] then "." else String.mk (joinParts parts)

/-! ## PathAllocator (the collision loop of MediaFile.get_outpath) -/

/-- MediaFile.__path_exists: the in-memory reservation list
(self.__opaths) and the on-disk snapshot. -/
def pathExistsIn (disk : Finset String) (reserved : List String) (p : String) : Prop :=
  p ∈ reserved ∨ p ∈ disk

instance (disk : Finset String) (reserved : List String) (p : String) :
    Decidable (pathExistsIn disk reserved p) := by
  unfold pathExistsIn; infer_instance

/-- The candidate with numeric suffix i spliced immediately before the
extension: "%s-%s%s" % (bpath, i, ext). -/
def suffixCandidate (bpath ext2 : String) (i : Nat) : String :=
  bpath ++ "-" ++ String.mk (decRepr i) ++ ext2

/-- The candidate chain the loop walks: the original path, then the
suffixed candidates from 1. -/
def chainAt (path bpath ext2 : String) (k : Nat) : String :=
  if k = 0 then path else suffixCandidate bpath ext2 k

/-- The while loop of get_outpath, with structural fuel (the theorems
below show the fuel used by allocate always suffices). -/
def allocLoop (disk : Finset String) (reserved : List String) (bpath ext2 : String) :
    Nat → String → Nat → Option String
  | 0, _, _ => none
  | fuel + 1, p, i =>
    if pathExistsIn disk reserved p then
      allocLoop disk reserved bpath ext2 fuel (suffixCandidate bpath ext2 i) (i + 1)
    else some p

/-- The collision-avoidance step of MediaFile.get_outpath on one
candidate path. -/
def allocate (disk : Finset String) (reserved : List String) (path : String) : String :=
  let se := splitext path
  (allocLoop disk reserved se.1 se.2 ((disk ∪ reserved.toFinset).card + 2) path 1).getD
    path

theorem splitextChars_concat (l : List Char) :
    (splitextChars l).1 ++ (splitextChars l).2 = l := by
  unfold splitextChars
  rcases splitDotIdx l with _ | n
  · simp
  · simp

theorem splitext_concat (p : String) : (splitext p).1 ++ (splitext p).2 = p := by
  show String.mk ((splitextChars p.data).1 ++ (splitextChars p.data).2) = p
  rw [splitextChars_concat]

theorem suffixCandidate_inj (bpath ext2 : String) :
    ∀ i j : Nat, suffixCandidate bpath ext2 i = suffixCandidate bpath ext2 j → i = j := by
  intro i j h
  unfold suffixCandidate at h
  have hdata : bpath.data ++ ('-' :: (decRepr i ++ ext2.data)) =
      bpath.data ++ ('-' :: (decRepr j ++ ext2.data)) := by
    have h2 := congrArg String.data h
    simpa [String.data_append] using h2
  have h1 := List.append_cancel_left hdata
  have h2 : decRepr i ++ ext2.data = decRepr j ++ ext2.data := by
    simpa using h1
  exact decRepr_injective (List.append_cancel_right h2)

theorem chainAt_length_ne (path bpath ext2 : String)
    (hsplit : bpath ++ ext2 = path) (k : Nat) (hk : k ≠ 0) :
    chainAt path bpath ext2 k ≠ path := by
  unfold chainAt suffixCandidate
  rw [if_neg hk]
  intro h
  have hlen := congrArg (fun s : String => s.data.length) h
  rw [← hsplit] at hlen
  simp only [String.data_append] at hlen
  simp only [List.length_append] at hlen
  have hne : (decRepr k).length ≠ 0 := by
    intro h0
    have : decRepr k = [] := List.eq_nil_of_length_eq_zero h0
    rw [decRepr_eq] at this
    by_cases hz : k = 0
    · rw [if_pos hz] at this
      simp at this
    · rw [if_neg hz] at this
      have := congrArg List.length this
      simp [Nat.digits_ne_nil_iff_ne_zero.mpr hz] at this
  have hmk : (String.mk (decRepr k)).data.length = (decRepr k).length := rfl
  have hdash : ("-" : String).data.length = 1 := rfl
  omega

theorem chainAt_inj (path bpath ext2 : String) (hsplit : bpath ++ ext2 = path) :
    ∀ i j : Nat, i ≠ j → chainAt path bpath ext2 i ≠ chainAt path bpath ext2 j := by
  intro i j hne heq
  by_cases hi : i = 0
  · subst hi
    have hj : j ≠ 0 := fun h => hne h.symm
    have h0 : chainAt path bpath ext2 0 = path := by
      unfold chainAt
      rw [if_pos rfl]
    rw [h0] at heq
    exact chainAt_length_ne path bpath ext2 hsplit j hj heq.symm
  · by_cases hj : j = 0
    · subst hj
      have h0 : chainAt path bpath ext2 0 = path := by
        unfold chainAt
        rw [if_pos rfl]
      rw [h0] at heq
      exact chainAt_length_ne path bpath ext2 hsplit i hi heq
    · have h1 : chainAt path bpath ext2 i = suffixCandidate bpath ext2 i := by
        unfold chainAt
        rw [if_neg hi]
      have h2 : chainAt path bpath ext2 j = suffixCandidate bpath ext2 j := by
        unfold chainAt
        rw [if_neg hj]
      rw [h1, h2] at heq
      exact hne (suffixCandidate_inj bpath ext2 i j heq)

/-- Running the loop from chain position j with enough fuel to reach a
free candidate returns the first free candidate at or after j. -/
theorem allocLoop_run (disk : Finset String) (reserved : List String)
    (path bpath ext2 : String) :
    ∀ (fuel j : Nat),
      (∃ m, j ≤ m ∧ m < j + fuel ∧
        ¬ pathExistsIn disk reserved (chainAt path bpath ext2 m)) →
      ∃ k, j ≤ k ∧
        ¬ pathExistsIn disk reserved (chainAt path bpath ext2 k) ∧
        (∀ m, j ≤ m → m < k → pathExistsIn disk reserved (chainAt path bpath ext2 m)) ∧
        allocLoop disk reserved bpath ext2 fuel (chainAt path bpath ext2 j) (j + 1) =
          some (chainAt path bpath ext2 k) := by
  intro fuel
  induction fuel with
  | zero =>
    intro j hfree
    obtain ⟨m, h1, h2, -⟩ := hfree
    omega
  | succ f ih =>
    intro j hfree
    by_cases hocc : pathExistsIn disk reserved (chainAt path bpath ext2 j)
    · have hfree2 : ∃ m, j + 1 ≤ m ∧ m < (j + 1) + f ∧
          ¬ pathExistsIn disk reserved (chainAt path bpath ext2 m) := by
        obtain ⟨m, h1, h2, h3⟩ := hfree
        refine ⟨m, ?_, by omega, h3⟩
        rcases Nat.lt_or_ge j m with h | h
        · omega
        · have : m = j := by omega
          subst this
          exact absurd hocc h3
      obtain ⟨k, hk1, hk2, hk3, hk4⟩ := ih (j + 1) hfree2
      refine ⟨k, by omega, hk2, ?_, ?_⟩
      · intro m hm1 hm2
        rcases Nat.lt_or_ge m (j + 1) with h | h
        · have : m = j := by omega
          subst this
          exact hocc
        · exact hk3 m h hm2
      · show (if pathExistsIn disk reserved (chainAt path bpath ext2 j) then
          allocLoop disk reserved bpath ext2 f
            (suffixCandidate bpath ext2 (j + 1)) (j + 1 + 1)
          else some (chainAt path bpath ext2 j)) = _
        rw [if_pos hocc]
        have hch : suffixCandidate bpath ext2 (j + 1) =
            chainAt path bpath ext2 (j + 1) := by
          unfold chainAt
          rw [if_neg (by omega)]
        rw [hch]
        exact hk4
    · refine ⟨j, le_rfl, hocc, by omega, ?_⟩
      show (if pathExistsIn disk reserved (chainAt path bpath ext2 j) then
        allocLoop disk reserved bpath ext2 f
          (suffixCandidate bpath ext2 (j + 1)) (j + 1 + 1)
        else some (chainAt path bpath ext2 j)) = _
      rw [if_neg hocc]

/-- Pigeonhole: among the first card+2 chain candidates one is free. -/
theorem exists_free_candidate (disk : Finset String) (reserved : List String)
    (path bpath ext2 : String) (hsplit : bpath ++ ext2 = path) :
    ∃ m, m < (disk ∪ reserved.toFinset).card + 2 ∧
      ¬ pathExistsIn disk reserved (chainAt path bpath ext2 m) := by
  by_contra hall
  push_neg at hall
  set N := (disk ∪ reserved.toFinset).card with hN
  have hsub : (Finset.range (N + 2)).image (chainAt path bpath ext2) ⊆
      disk ∪ reserved.toFinset := by
    intro x hx
    rw [Finset.mem_image] at hx
    obtain ⟨m, hm, rfl⟩ := hx
    rw [Finset.mem_range] at hm
    have := hall m hm
    rcases this with h | h
    · rw [Finset.mem_union]
      right
      rw [List.mem_toFinset]
      exact h
    · rw [Finset.mem_union]
      left
      exact h
  have hcard : ((Finset.range (N + 2)).image (chainAt path bpath ext2)).card = N + 2 := by
    rw [Finset.card_image_of_injOn]
    · exact Finset.card_range (N + 2)
    · intro i _ j _ hij
      by_contra hne
      exact chainAt_inj path bpath ext2 hsplit i j hne hij
  have := Finset.card_le_card hsub
  rw [hcard] at this
  omega

/-- The allocate result characterized: it is the first free element of
the candidate chain. -/
theorem allocate_spec (disk : Finset String) (reserved : List String) (path : String) :
    ∃ k, allocate disk reserved path =
        chainAt path (splitext path).1 (splitext path).2 k ∧
      ¬ pathExistsIn disk reserved
        (chainAt path (splitext path).1 (splitext path).2 k) ∧
      (∀ m, m < k → pathExistsIn disk reserved
        (chainAt path (splitext path).1 (splitext path).2 m)) := by
  obtain ⟨m, hm1, hm2⟩ := exists_free_candidate disk reserved path
    (splitext path).1 (splitext path).2 (splitext_concat path)
  obtain ⟨k, -, hk2, hk3, hk4⟩ := allocLoop_run disk reserved path
    (splitext path).1 (splitext path).2 ((disk ∪ reserved.toFinset).card + 2) 0
    ⟨m, by omega, by omega, hm2⟩
  refine ⟨k, ?_, hk2, fun m2 hm2lt => hk3 m2 (by omega) hm2lt⟩
  unfold allocate
  have hch0 : chainAt path (splitext path).1 (splitext path).2 0 = path := rfl
  rw [← hch0]
  show (allocLoop disk reserved (splitext path).1 (splitext path).2
    ((disk ∪ reserved.toFinset).card + 2)
    (chainAt path (splitext path).1 (splitext path).2 0) (0 + 1)).getD _ = _
  rw [hk4]
  rfl

/-- C6 (confirmed): path allocation never returns a path on disk or in
the reservation set; colliding candidates get incrementing integer
suffixes -1, -2, ... immediately before the extension, starting at 1,
and the result is the first free candidate in that order; two
sequential allocations of the same candidate, the first result being
reserved, yield distinct paths. -/
theorem c6_path_allocation (disk : Finset String) (reserved : List String)
    (path : String) :
    (¬ pathExistsIn disk reserved (allocate disk reserved path)) ∧
    (∃ k, allocate disk reserved path =
        chainAt path (splitext path).1 (splitext path).2 k ∧
      (∀ m, m < k → pathExistsIn disk reserved
        (chainAt path (splitext path).1 (splitext path).2 m))) ∧
    (pathExistsIn disk reserved path →
      ∃ k, 1 ≤ k ∧ allocate disk reserved path =
        suffixCandidate (splitext path).1 (splitext path).2 k) ∧
    (allocate disk (reserved ++ [allocate disk reserved path]) path ≠
      allocate disk reserved path) := by
  obtain ⟨k, hk1, hk2, hk3⟩ := allocate_spec disk reserved path
  refine ⟨by rw [hk1]; exact hk2, ⟨k, hk1, hk3⟩, ?_, ?_⟩
  · intro hocc
    refine ⟨k, ?_, ?_⟩
    · rcases Nat.eq_zero_or_pos k with h | h
      · subst h
        exact absurd hocc hk2
      · omega
    · rw [hk1]
      unfold chainAt
      rw [if_neg (by
        rcases Nat.eq_zero_or_pos k with h | h
        · subst h
          exact absurd hocc hk2
        · omega)]
  · obtain ⟨k2, hk21, hk22, -⟩ :=
      allocate_spec disk (reserved ++ [allocate disk reserved path]) path
    rw [hk21]
    intro heq
    apply hk22
    left
    rw [heq]
    simp

/-- C6 witness: allocating "a.jpg" when it already exists on disk
yields a dash-suffixed candidate. -/
theorem c6_witness :
    pathExistsIn {"a.jpg"} [] "a.jpg" ∧
    ∃ k, 1 ≤ k ∧ allocate {"a.jpg"} [] "a.jpg" =
      suffixCandidate (splitext "a.jpg").1 (splitext "a.jpg").2 k :=
  ⟨Or.inr (by decide), (c6_path_allocation {"a.jpg"} [] "a.jpg").2.2.1
    (Or.inr (by decide))⟩

/-- C10 (confirmed): the suffixed candidates are pairwise distinct, so
the collision loop terminates: there is a chain index k bounded by the
number of occupied colliding paths plus one at which the candidate is
free, and the loop with fuel k+1 (that is, after at most k+1
iterations) returns it. -/
theorem c10_collision_loop_terminates (disk : Finset String) (reserved : List String)
    (path : String) :
    (∀ i j : Nat, i ≠ j →
      chainAt path (splitext path).1 (splitext path).2 i ≠
      chainAt path (splitext path).1 (splitext path).2 j) ∧
    (∃ k,
      k ≤ ((disk ∪ reserved.toFinset) ∩
        (Finset.range ((disk ∪ reserved.toFinset).card + 2)).image
          (chainAt path (splitext path).1 (splitext path).2)).card + 1 ∧
      ¬ pathExistsIn disk reserved (chainAt path (splitext path).1 (splitext path).2 k) ∧
      allocLoop disk reserved (splitext path).1 (splitext path).2 (k + 1) path 1 =
        some (chainAt path (splitext path).1 (splitext path).2 k)) := by
  have hsplit := splitext_concat path
  refine ⟨chainAt_inj path (splitext path).1 (splitext path).2 hsplit, ?_⟩
  obtain ⟨m, hm1, hm2⟩ := exists_free_candidate disk reserved path
    (splitext path).1 (splitext path).2 hsplit
  obtain ⟨k, -, hk2, hk3, -⟩ := allocLoop_run disk reserved path
    (splitext path).1 (splitext path).2 ((disk ∪ reserved.toFinset).card + 2) 0
    ⟨m, by omega, by omega, hm2⟩
  have hkm : k ≤ m := by
    by_contra hgt
    push_neg at hgt
    exact hm2 (hk3 m (by omega) hgt)
  refine ⟨k, ?_, hk2, ?_⟩
  · set N := (disk ∪ reserved.toFinset).card with hN
    set COL := (disk ∪ reserved.toFinset) ∩
      (Finset.range (N + 2)).image
        (chainAt path (splitext path).1 (splitext path).2) with hCOL
    have hsub : (Finset.range k).image
        (chainAt path (splitext path).1 (splitext path).2) ⊆ COL := by
      intro x hx
      rw [Finset.mem_image] at hx
      obtain ⟨j, hj, rfl⟩ := hx
      rw [Finset.mem_range] at hj
      rw [hCOL, Finset.mem_inter]
      constructor
      · have hocc := hk3 j (by omega) hj
        rcases hocc with h | h
        · rw [Finset.mem_union]
          right
          rw [List.mem_toFinset]
          exact h
        · rw [Finset.mem_union]
          left
          exact h
      · rw [Finset.mem_image]
        exact ⟨j, by rw [Finset.mem_range]; omega, rfl⟩
    have hcard : ((Finset.range k).image
        (chainAt path (splitext path).1 (splitext path).2)).card = k := by
      rw [Finset.card_image_of_injOn]
      · exact Finset.card_range k
      · intro i _ j _ hij
        by_contra hne
        exact chainAt_inj path (splitext path).1 (splitext path).2 hsplit i j hne hij
    have := Finset.card_le_card hsub
    rw [hcard] at this
    omega
  · obtain ⟨k2, -, hk22, hk23, hk24⟩ := allocLoop_run disk reserved path
      (splitext path).1 (splitext path).2 (k + 1) 0 ⟨k, by omega, by omega, hk2⟩
    have hk2k : k2 = k := by
      rcases Nat.lt_trichotomy k2 k with h | h | h
      · exact absurd (hk3 k2 (by omega) h) hk22
      · exact h
      · exact absurd (hk23 k (by omega) h) hk2
    subst hk2k
    exact hk24

/-! ## MediaFile.get_outpath and the Organizer faildir computation -/

/-- Python truthiness of an optional string: None and "" are falsy. -/
def truthyS : Option String → Bool
  | none => false
  | some s => !s.isEmpty

/-- MediaFile.get_outpath.  self.__time and the selected pattern's
formatted result are summarized by formatted (none when there is no
resolved time or no applicable pattern, the formatted path
otherwise); .error models the TypeError raised when os.path.join or
os.path.splitext receives None. -/
def get_outpath (disk : Finset String) (reserved : List String)
    (selfPath : String) (formatted : Option String)
    (faildir fromdir outdir : Option String) : Except String (Option String) :=
  let path0 := formatted
  let step1 : Except String (Option String) :=
    if truthyS path0 = false ∧ truthyS faildir = true then
      let pathA : Option String :=
        match fromdir with
        | some fd => if fd.isEmpty then path0 else some (relpath selfPath fd)
        | none => path0
      match pathA with
      | some rel => .ok (some (pathJoin (faildir.getD "") rel))
      | none => .error "TypeError: join with None"
    else .ok path0
  match step1 with
  | .error e => .error e
  | .ok path1 =>
    let step2 : Except String (Option String) :=
      if truthyS outdir = true then
        match path1 with
        | some p1 => .ok (some (pathJoin (outdir.getD "") p1))
        | none => .error "TypeError: join with None"
      else .ok path1
    match step2 with
    | .error e => .error e
    | .ok path2 =>
      match path2 with
      | none => .error "TypeError: splitext of None"
      | some p2 =>
        if p2 = selfPath then .ok none
        else .ok (some (allocate disk reserved p2))

/-- The per-root setup of Organizer.run (outdir and faildir
computation) followed by get_outpath for one file. -/
def organizerOutpath (disk : Finset String) (reserved : List String)
    (fromdir : String) (argsOutdir : Option String) (argsFaildir : String)
    (selfPath : String) (formatted : Option String) : Except String (Option String) :=
  let outdir :=
    match argsOutdir with
    | some od => pathJoin fromdir od
    | none => fromdir
  let faildir := pathJoin outdir argsFaildir
  get_outpath disk reserved selfPath formatted (some faildir) (some fromdir)
    (some outdir)

/-- C7: with a relative scan root, an unresolvable file is NOT placed
at faildir/<relative-path>: because Organizer.run pre-joins faildir
with outdir and get_outpath joins outdir again, the outdir component
is duplicated.  The file photos/sub/img.jpg under root "photos" with
the default fail directory "./failed" is routed to
photos/photos/./failed/sub/img.jpg instead of the intended
photos/./failed/sub/img.jpg. -/
theorem c7_faildir_duplicates_outdir :
    organizerOutpath ∅ [] "photos" none "./failed" "photos/sub/img.jpg" none =
      .ok (some "photos/photos/./failed/sub/img.jpg") ∧
    relpath "photos/sub/img.jpg" "photos" = "sub/img.jpg" ∧
    pathJoin (pathJoin "photos" "./failed") (relpath "photos/sub/img.jpg" "photos") =
      "photos/./failed/sub/img.jpg" ∧
    ("photos/photos/./failed/sub/img.jpg" : String) ≠
      "photos/./failed/sub/img.jpg" := by
  refine ⟨rfl, by decide, by decide, by decide⟩

/-! ## OutputPattern

str.format templates are represented by their parsed segments
(literal runs and \x7bname:spec\x7d replacement fields).  format is
called with exactly the keyword arguments time and filename; ext is
not among them. -/

/-- Parsed segment of a str.format template. -/
inductive FmtSeg where
  | lit (s : String)
  | field (name : String) (spec : String)
deriving Repr, DecidableEq

/-- Lowercasing of a string (str.lower, ASCII scope). -/
def lowerStr (s : String) : String := String.mk (s.data.map Char.toLower)

/-- str(datetime): isoformat with a space separator, microseconds
omitted when 0. -/
def isoStr (t : PyDateTime) : String :=
  String.mk (decPad 4 t.year ++ '-' :: decPad 2 t.month ++ '-' :: decPad 2 t.day ++
    ' ' :: decPad 2 t.hour ++ ':' :: decPad 2 t.minute ++ ':' :: decPad 2 t.second ++
    (if t.micro = 0 then [] else '.' :: decPad 6 t.micro))

/-- datetime.__format__: empty spec gives str(t), non-empty spec is
strftime of the spec. -/
def formatDatetime (spec : String) (t : PyDateTime) : String :=
  if spec = "" then isoStr t
  else String.mk (renderItems (compileChars spec.data) t)

/-- One replacement field evaluated against the kwargs time/filename:
any other name raises KeyError at format time. -/
def formatField (name spec : String) (timeval : PyDateTime) (filename : String) :
    Except String String :=
  if name = "time" then .ok (formatDatetime spec timeval)
  else if name = "filename" then
    (if spec = "" then .ok filename
     else .error "format spec on filename not modelled")
  else .error ("KeyError: " ++ name)

/-- str.format over the parsed segments. -/
def pyFormat (segs : List FmtSeg) (timeval : PyDateTime) (filename : String) :
    Except String String :=
  match segs with
  | [] => .ok ""
  | .lit s :: rest =>
    match pyFormat rest timeval filename with
    | .ok r => .ok (s ++ r)
    | .error e => .error e
  | .field name spec :: rest =>
    match formatField name spec timeval filename with
    | .error e => .error e
    | .ok v =>
      match pyFormat rest timeval filename with
      | .ok r => .ok (v ++ r)
      | .error e => .error e

/-- OutputPattern.format: formats the template with time and filename
and appends the lowercased source extension (with its dot) to the
result; the extension is never substituted as a field. -/
def outputFormat (segs : List FmtSeg) (path : String) (timeval : PyDateTime) :
    Except String String :=
  let ext2 := (splitext path).2
  let ext3 := if ext2 = "" then "" else lowerStr ext2
  match pyFormat segs timeval (basename path) with
  | .ok r => .ok (r ++ ext3)
  | .error e => .error e

/-- Reads a \x7bname:spec\x7d or \x7bname\x7d field head: returns
(name, spec or none, rest after the closing brace).  Scope: names and
specs without nested braces, names without colons. -/
def takeField (l : List Char) : Option (List Char × Option (List Char) × List Char) :=
  let name := l.takeWhile (fun c => c ≠ ':' ∧ c ≠ Char.ofNat 125 ∧ c ≠ Char.ofNat 123)
  let rest := l.drop name.length
  match rest with
  | ':' :: rest2 =>
    let spec := rest2.takeWhile (fun c => c ≠ Char.ofNat 125 ∧ c ≠ Char.ofNat 123)
    let rest3 := rest2.drop spec.length
    match rest3 with
    | c :: rest4 =>
      if c = Char.ofNat 125 ∧ name ≠ [] then some (name, some spec, rest4) else none
    | [] => none
  | c :: rest2 => if c = Char.ofNat 125 then some (name, none, rest2) else none
  | [] => none

/-- The two REPLS substitutions of OutputPattern.__init__, fuelled for
kernel evaluation: a typed field becomes its literal format spec, an
untyped field becomes the wildcard regex. -/
def replFuel : Nat → List Char → List Char
  | 0, l => l
  | _ + 1, [] => []
  | fuel + 1, c :: rest =>
    if c = Char.ofNat 123 then
      match takeField rest with
      | some (_, some spec, r) => spec ++ replFuel fuel r
      | some (_, none, r) => '[' :: '^' :: '/' :: ']' :: '*' :: replFuel fuel r
      | none => c :: replFuel fuel rest
    else c :: replFuel fuel rest

/-- OutputPattern.__init__: rewrite the template through REPLS and
compile the result as a DatetimePattern; no field-name validation of
any kind happens here, and the function is total. -/
def outputCompileRecognizer (pattern : String) : DatetimePattern :=
  DatetimePattern.compile (String.mk (replFuel pattern.data.length pattern.data))

/-- Field kinds OutputPattern.format substitutes successfully. -/
def FieldOK (seg : FmtSeg) : Prop :=
  match seg with
  | .lit _ => True
  | .field name spec => name = "time" ∨ (name = "filename" ∧ spec = "")

instance : DecidablePred FieldOK := by
  intro seg
  cases seg <;> unfold FieldOK <;> infer_instance

/-- Pure rendering of a template whose fields are all time/filename. -/
def renderSegs : List FmtSeg → PyDateTime → String → String
  | [], _, _ => ""
  | .lit s :: rest, t, fn => s ++ renderSegs rest t fn
  | .field name spec :: rest, t, fn =>
    (if name = "time" then formatDatetime spec t else fn) ++ renderSegs rest t fn

theorem pyFormat_ok (timeval : PyDateTime) (filename : String) :
    ∀ segs : List FmtSeg, (∀ seg ∈ segs, FieldOK seg) →
      pyFormat segs timeval filename = .ok (renderSegs segs timeval filename) := by
  intro segs
  induction segs with
  | nil => intro _; rfl
  | cons seg rest ih =>
    intro hok
    have hrest := ih (fun s hs => hok s (by simp [hs]))
    cases seg with
    | lit s =>
      show (match pyFormat rest timeval filename with
        | .ok r => Except.ok (s ++ r)
        | .error e => Except.error e) = _
      rw [hrest]
      rfl
    | field name spec =>
      have hf := hok (.field name spec) (by simp)
      unfold FieldOK at hf
      show (match formatField name spec timeval filename with
        | .error e => Except.error e
        | .ok v =>
          match pyFormat rest timeval filename with
          | .ok r => Except.ok (v ++ r)
          | .error e => Except.error e) = _
      rcases hf with h | ⟨h1, h2⟩
      · subst h
        have hff : formatField "time" spec timeval filename =
            .ok (formatDatetime spec timeval) := rfl
        have hr : renderSegs (FmtSeg.field "time" spec :: rest) timeval filename =
            formatDatetime spec timeval ++ renderSegs rest timeval filename := by
          show (if ("time" : String) = "time" then formatDatetime spec timeval
            else filename) ++ renderSegs rest timeval filename = _
          rw [if_pos rfl]
        simp only [hff, hrest, hr]
      · subst h1
        subst h2
        have hff : formatField "filename" "" timeval filename = .ok filename := rfl
        have hr : renderSegs (FmtSeg.field "filename" "" :: rest) timeval filename =
            filename ++ renderSegs rest timeval filename := by
          show (if ("filename" : String) = "time" then formatDatetime "" timeval
            else filename) ++ renderSegs rest timeval filename = _
          rw [if_neg (by decide)]
        simp only [hff, hrest, hr]

theorem pyFormat_bad_field (timeval : PyDateTime) (filename : String) :
    ∀ segs : List FmtSeg,
      (∃ name spec, FmtSeg.field name spec ∈ segs ∧ name ≠ "time" ∧
        name ≠ "filename") →
      ∃ e, pyFormat segs timeval filename = .error e := by
  intro segs
  induction segs with
  | nil =>
    intro h
    obtain ⟨name, spec, hmem, -, -⟩ := h
    simp at hmem
  | cons seg rest ih =>
    intro h
    obtain ⟨name, spec, hmem, hn1, hn2⟩ := h
    rcases List.mem_cons.mp hmem with he | hm
    · subst he
      have hff : formatField name spec timeval filename =
          .error ("KeyError: " ++ name) := by
        unfold formatField
        rw [if_neg hn1, if_neg hn2]
      refine ⟨"KeyError: " ++ name, ?_⟩
      show (match formatField name spec timeval filename with
        | .error e => Except.error e
        | .ok v =>
          match pyFormat rest timeval filename with
          | .ok r => Except.ok (v ++ r)
          | .error e => Except.error e) = _
      rw [hff]
    · obtain ⟨e, he⟩ := ih ⟨name, spec, hm, hn1, hn2⟩
      cases seg with
      | lit s =>
        refine ⟨e, ?_⟩
        show (match pyFormat rest timeval filename with
          | .ok r => Except.ok (s ++ r)
          | .error e => Except.error e) = _
        rw [he]
      | field n2 sp2 =>
        show ∃ e2, (match formatField n2 sp2 timeval filename with
          | .error e2 => Except.error e2
          | .ok v =>
            match pyFormat rest timeval filename with
            | .ok r => Except.ok (v ++ r)
            | .error e2 => Except.error e2) = Except.error e2
        rcases hf : formatField n2 sp2 timeval filename with e2 | v
        · exact ⟨e2, rfl⟩
        · refine ⟨e, ?_⟩
          rw [he]

/-- C8 (amended): OutputPattern.format substitutes only the two named
fields time (with the field's format specifier) and filename into the
template and then appends the lowercased source extension (including
the dot) to the result; the extension is never substituted as a
field, a template referencing any other field name (including ext)
compiles without complaint but raises KeyError at format time, and
template compilation performs no field-name validation at all. -/
theorem c8_output_format (segs : List FmtSeg) (path : String) (t : PyDateTime) :
    ((∀ seg ∈ segs, FieldOK seg) →
      outputFormat segs path t =
        .ok (renderSegs segs t (basename path) ++
          (if (splitext path).2 = "" then "" else lowerStr (splitext path).2))) ∧
    ((∃ name spec, FmtSeg.field name spec ∈ segs ∧ name ≠ "time" ∧
        name ≠ "filename") →
      ∃ e, outputFormat segs path t = .error e) := by
  constructor
  · intro hok
    unfold outputFormat
    rw [pyFormat_ok t (basename path) segs hok]
  · intro hbad
    obtain ⟨e, he⟩ := pyFormat_bad_field t (basename path) segs hbad
    refine ⟨e, ?_⟩
    unfold outputFormat
    rw [he]

/-- C8 counterexample: the template consisting of the single field ext
is accepted by OutputPattern compilation (which turns it into the
wildcard recognizer and validates nothing), but formatting raises
KeyError at format time; meanwhile the extension is appended to every
formatted result, lowercased, even though no field mentions it. -/
theorem c8_counterexample :
    outputFormat [FmtSeg.field "ext" ""] "a/b.JPG" ⟨2023, 1, 1, 0, 0, 0, 0⟩ =
      .error "KeyError: ext" ∧
    outputCompileRecognizer "\x7bext\x7d" =
      { items := [.lit '[', .lit '^', .lit '/', .lit ']', .lit '*'],
        placeholders := [], timefmt := none } ∧
    outputFormat [FmtSeg.lit "x"] "a/b.JPG" ⟨2023, 1, 1, 0, 0, 0, 0⟩ =
      .ok "x.jpg" := by
  refine ⟨rfl, by decide, rfl⟩

/-- C8 witness: a template using time and filename formats cleanly and
the lowercased extension is appended. -/
theorem c8_witness :
    outputFormat [FmtSeg.field "time" "%Y", FmtSeg.lit "/",
        FmtSeg.field "filename" ""] "d/p.JPG" ⟨2023, 6, 15, 10, 15, 0, 0⟩ =
      .ok (renderSegs [FmtSeg.field "time" "%Y", FmtSeg.lit "/",
        FmtSeg.field "filename" ""] ⟨2023, 6, 15, 10, 15, 0, 0⟩ (basename "d/p.JPG") ++
        (if (splitext "d/p.JPG").2 = "" then ""
         else lowerStr (splitext "d/p.JPG").2)) :=
  (c8_output_format _ "d/p.JPG" ⟨2023, 6, 15, 10, 15, 0, 0⟩).1 (by decide)

/-! ## Organizer.__process_file in dry-run mode -/

/-- Filesystem snapshot: existing paths plus the log of metadata
write-backs performed on it. -/
structure FS where
  existing : Finset String
  metaWrites : List String
deriving DecidableEq

/-- MediaFile.save: makedirs plus move or copyfile, then (for files
whose time did not come from exif) one metadata write-back attempt. -/
def saveFS (fs : FS) (src dst : String) (move writeBack : Bool) : FS :=
  { existing :=
      if move then insert dst (fs.existing.erase src) else insert dst fs.existing
    metaWrites := fs.metaWrites ++ (if writeBack then [dst] else []) }

/-- Organizer.__process_file for one file: skip when an output
recognizer matches the path; compute the destination through
get_outpath (disk snapshot = current filesystem, reservation set =
self.__opaths); in dry-run append the planned path to the reservation
set and do nothing else, otherwise perform MediaFile.save. -/
def processFile (dry : Bool) (matchesOutput : Bool) (fs : FS)
    (opaths : List String) (selfPath : String) (formatted : Option String)
    (faildir fromdir outdir : Option String) (move writeBack : Bool) :
    FS × List String × Except String (Option String) :=
  if matchesOutput then (fs, opaths, .ok none)
  else
    match get_outpath fs.existing opaths selfPath formatted faildir fromdir outdir with
    | .error e => (fs, opaths, .error e)
    | .ok none => (fs, opaths, .ok none)
    | .ok (some opath) =>
      if dry then (fs, opaths ++ [opath], .ok (some opath))
      else (saveFS fs selfPath opath move writeBack, opaths, .ok (some opath))

/-- C9 (confirmed): in dry-run mode no filesystem mutation occurs and
no metadata write-back is attempted - the filesystem state after
processing equals the state before - while the planned destination
path, when one is computed, is recorded in the in-memory reservation
set. -/
theorem c9_dry_run_no_mutation (matchesOutput : Bool) (fs : FS)
    (opaths : List String) (selfPath : String) (formatted : Option String)
    (faildir fromdir outdir : Option String) (move writeBack : Bool) :
    (processFile true matchesOutput fs opaths selfPath formatted faildir fromdir
      outdir move writeBack).1 = fs ∧
    (processFile true matchesOutput fs opaths selfPath formatted faildir fromdir
      outdir move writeBack).1.metaWrites = fs.metaWrites ∧
    (∀ p, (processFile true matchesOutput fs opaths selfPath formatted faildir
        fromdir outdir move writeBack).2.2 = .ok (some p) →
      (processFile true matchesOutput fs opaths selfPath formatted faildir fromdir
        outdir move writeBack).2.1 = opaths ++ [p]) ∧
    ((∀ p, (processFile true matchesOutput fs opaths selfPath formatted faildir
        fromdir outdir move writeBack).2.2 ≠ .ok (some p)) →
      (processFile true matchesOutput fs opaths selfPath formatted faildir fromdir
        outdir move writeBack).2.1 = opaths) := by
  unfold processFile
  by_cases hm : matchesOutput
  · rw [if_pos hm]
    refine ⟨rfl, rfl, ?_, fun _ => rfl⟩
    intro p hp
    simp at hp
  · rw [if_neg hm]
    rcases hg : get_outpath fs.existing opaths selfPath formatted faildir fromdir
      outdir with e | op
    · refine ⟨rfl, rfl, ?_, fun _ => rfl⟩
      intro p hp
      simp at hp
    · cases op with
      | none =>
        refine ⟨rfl, rfl, ?_, fun _ => rfl⟩
        intro p hp
        simp at hp
      | some opath =>
        simp only [if_true]
        refine ⟨trivial, trivial, ?_, ?_⟩
        · intro p hp
          simp only [Except.ok.injEq, Option.some.injEq] at hp
          rw [hp]
        · intro hno
          exact absurd rfl (hno opath)

/-- C9 witness: a concrete dry run plans out/x.jpg and records it in
the reservation set. -/
theorem c9_witness :
    (processFile true false ⟨∅, []⟩ [] "a/b.jpg" (some "out/x.jpg") (some "f")
      (some "a") none false true).2.1 = [] ++ ["out/x.jpg"] :=
  (c9_dry_run_no_mutation false ⟨∅, []⟩ [] "a/b.jpg" (some "out/x.jpg") (some "f")
    (some "a") none false true).2.2.1 "out/x.jpg" rfl

end Mediaorg
